import Mathlib

/-!
# kmpad: keyboard and mouse to gamepad translation

A shallow embedding of `kmpad.cpp` and the properties of its translation core.

Modelling conventions.

* A C++ `double` is modelled by an exact rational number: the arithmetic of
  `abs_acc` and `abs_dec` is the arithmetic of `ℚ`, without rounding error,
  infinities or NaN. The properties of the decay that depend on the rounding
  are stated on `abs_dec_f64` instead, which rounds every operation to an
  IEEE 754 double (round to nearest, ties to even; no fused multiply-add and no
  extended precision).
* An `int` is modelled by an integer of `ℤ`; the one place where a value may
  leave the 32-bit range, the conversion `(int)round(*val)` of `abs_dec`, is
  modelled by `double_to_int`.
* The `write` performed by `send_event` is modelled by the event it is asked to
  write: every function returns the list of events it sends, in order. The
  functions with the suffix `_w` repeat the loop with the outcome of every
  `write`, which may fail.
* The endless `while (1)` of `main` is modelled by the finite list of cycles
  executed so far, each cycle being given the keyboard events and the mouse
  events that its two `read` loops return.
-/

namespace Kmpad

/-! ## Constants -/

/-- Largest magnitude of an axis, `const int MAX_ABS = 32767`. -/
def MAX_ABS : ℤ := 32767

/-- Base decay factor, `const double DEC_A = 0.999`. -/
def DEC_A : ℚ := 999 / 1000

/-- Magnitude-dependent decay factor, `const double DEC_B = 0.01`. -/
def DEC_B : ℚ := 1 / 100

/-- Smallest value of a 32-bit `int`. -/
def INT_MIN : ℤ := -2147483648

/-- Largest value of a 32-bit `int`. -/
def INT_MAX : ℤ := 2147483647

/-! Event types and codes of the Linux input subsystem, which `kmpad.cpp` obtains
through `linux/uinput.h`; the values are those of the kernel's userspace ABI. -/

def EV_SYN : ℕ := 0x00
def EV_KEY : ℕ := 0x01
def EV_REL : ℕ := 0x02
def EV_ABS : ℕ := 0x03

def KEY_Q : ℕ := 16
def KEY_W : ℕ := 17
def KEY_E : ℕ := 18
def KEY_R : ℕ := 19
def KEY_I : ℕ := 23
def KEY_O : ℕ := 24
def KEY_P : ℕ := 25
def KEY_A : ℕ := 30
def KEY_S : ℕ := 31
def KEY_D : ℕ := 32
def KEY_F : ℕ := 33
def KEY_LEFTSHIFT : ℕ := 42
def KEY_X : ℕ := 45
def KEY_C : ℕ := 46
def KEY_LEFTALT : ℕ := 56
def KEY_SPACE : ℕ := 57
def KEY_UP : ℕ := 103
def KEY_LEFT : ℕ := 105
def KEY_RIGHT : ℕ := 106
def KEY_DOWN : ℕ := 108

def BTN_LEFT : ℕ := 0x110
def BTN_RIGHT : ℕ := 0x111
def BTN_MIDDLE : ℕ := 0x112
def BTN_SIDE : ℕ := 0x113
def BTN_EXTRA : ℕ := 0x114

def BTN_A : ℕ := 0x130
def BTN_B : ℕ := 0x131
def BTN_X : ℕ := 0x133
def BTN_Y : ℕ := 0x134
def BTN_TL : ℕ := 0x136
def BTN_TR : ℕ := 0x137
def BTN_TL2 : ℕ := 0x138
def BTN_TR2 : ℕ := 0x139
def BTN_SELECT : ℕ := 0x13a
def BTN_START : ℕ := 0x13b
def BTN_MODE : ℕ := 0x13c
def BTN_THUMBL : ℕ := 0x13d
def BTN_THUMBR : ℕ := 0x13e
def BTN_DPAD_UP : ℕ := 0x220
def BTN_DPAD_DOWN : ℕ := 0x221
def BTN_DPAD_LEFT : ℕ := 0x222
def BTN_DPAD_RIGHT : ℕ := 0x223

def ABS_X : ℕ := 0x00
def ABS_Y : ℕ := 0x01
def ABS_RX : ℕ := 0x03
def ABS_RY : ℕ := 0x04

/-! ## Events -/

/-- The fields of `struct input_event` that the program reads and writes: the
event type, the event code and the signed value. The same record is read from
the keyboard and the mouse and written to the gamepad. -/
structure input_event where
  type : ℕ
  code : ℕ
  value : ℤ
deriving DecidableEq, Repr

/-- The two stick variables `mouse_x` and `mouse_y` of `main`. -/
structure Stick where
  mouse_x : ℚ
  mouse_y : ℚ
deriving DecidableEq, Repr

/-! ## Library functions used by the program -/

/-- The C++ `std::max(a, b)`, which is `(a < b) ? b : a`. -/
def std_max (a b : ℚ) : ℚ := if a < b then b else a

/-- The C++ `std::min(a, b)`, which is `(b < a) ? b : a`. -/
def std_min (a b : ℚ) : ℚ := if b < a then b else a

/-- The C `round`: the nearest integer, halfway cases away from zero. -/
def c_round (x : ℚ) : ℤ := if 0 ≤ x then ⌊x + 1 / 2⌋ else ⌈x - 1 / 2⌉

/-- The conversion `(int)` applied to an integral `double`. A value in the range
of `int` is kept. Outside it the C++ conversion is undefined; the model takes the
result of the x86-64 conversion instruction, which is `INT_MIN`. -/
def double_to_int (z : ℤ) : ℤ := if INT_MIN ≤ z ∧ z ≤ INT_MAX then z else INT_MIN

/-! ## The translation functions -/

/-- The function `send_event`: the event written to the gamepad. -/
def send_event (type code : ℕ) (value : ℤ) : List input_event :=
  [{ type := type, code := code, value := value }]

/-- The function `but_clk`: map a button click to a button click. -/
def but_clk (in_ev : input_event) (in_key out_key : ℕ) : List input_event :=
  if in_ev.code = in_key ∧ in_ev.value ≠ 2 then
    send_event EV_KEY out_key in_ev.value ++ send_event EV_SYN 0 0
  else []

/-- The function `abs_clk`: map a button click to an axis value. -/
def abs_clk (in_ev : input_event) (key btn : ℕ) (value : ℤ) : List input_event :=
  if in_ev.code = key then
    send_event EV_ABS btn (if in_ev.value = 1 ∨ in_ev.value = 2 then value else 0)
      ++ send_event EV_SYN 0 0
  else []

/-- The function `abs_acc`: apply the acceleration to the current speed. The
result is the new content of `*val`. -/
def abs_acc (in_ev : input_event) (key : ℕ) (max acc val : ℚ) : ℚ :=
  if in_ev.code = key then
    std_max (-max) (std_min max (val + (in_ev.value : ℚ) * acc))
  else val

/-- The function `abs_dec`: apply the deceleration and send the axis value. The
result is the new content of `*val` and the events sent. `abs` at a `double`
is the floating-point overload that `math.h` declares in C++. -/
def abs_dec (btn : ℕ) (max dec_a dec_b val : ℚ) : ℚ × List input_event :=
  let val1 := val * (dec_a - (|val| / max * dec_b))
  (val1, send_event EV_ABS btn (double_to_int (c_round val1)) ++ send_event EV_SYN 0 0)

/-! ## The translation loop of `main` -/

/-- The twenty calls made for one keyboard event, in the order of `main`. -/
def keyboard_rules (ev : input_event) : List input_event :=
  but_clk ev KEY_LEFTALT BTN_A
    ++ but_clk ev KEY_SPACE BTN_B
    ++ but_clk ev KEY_X BTN_X
    ++ but_clk ev KEY_C BTN_Y
    ++ but_clk ev KEY_LEFTSHIFT BTN_THUMBL
    ++ but_clk ev KEY_Q BTN_DPAD_LEFT
    ++ but_clk ev KEY_E BTN_DPAD_RIGHT
    ++ but_clk ev KEY_R BTN_DPAD_UP
    ++ but_clk ev KEY_F BTN_DPAD_DOWN
    ++ but_clk ev KEY_I BTN_SELECT
    ++ but_clk ev KEY_O BTN_START
    ++ but_clk ev KEY_P BTN_MODE
    ++ but_clk ev KEY_LEFT BTN_DPAD_LEFT
    ++ but_clk ev KEY_RIGHT BTN_DPAD_RIGHT
    ++ but_clk ev KEY_UP BTN_DPAD_UP
    ++ but_clk ev KEY_DOWN BTN_DPAD_DOWN
    ++ abs_clk ev KEY_A ABS_X (-MAX_ABS)
    ++ abs_clk ev KEY_D ABS_X MAX_ABS
    ++ abs_clk ev KEY_W ABS_Y (-MAX_ABS)
    ++ abs_clk ev KEY_S ABS_Y MAX_ABS

/-- The five `but_clk` calls made for one mouse event, in the order of `main`. -/
def mouse_rules (ev : input_event) : List input_event :=
  but_clk ev BTN_LEFT BTN_TR2
    ++ but_clk ev BTN_RIGHT BTN_TL2
    ++ but_clk ev BTN_MIDDLE BTN_THUMBR
    ++ but_clk ev BTN_EXTRA BTN_TL
    ++ but_clk ev BTN_SIDE BTN_TR

/-- The two `abs_acc` calls made for one mouse event: first `mouse_x`, then
`mouse_y`. -/
def mouse_acc_step (mouse_acc : ℚ) (s : Stick) (ev : input_event) : Stick :=
  { mouse_x := abs_acc ev ABS_X MAX_ABS mouse_acc s.mouse_x,
    mouse_y := abs_acc ev ABS_Y MAX_ABS mouse_acc s.mouse_y }

/-- The keyboard `while (read ...)` loop over the pending keyboard events. -/
def drain_keyboard : List input_event → List input_event
  | [] => []
  | ev :: rest => keyboard_rules ev ++ drain_keyboard rest

/-- The mouse `while (read ...)` loop over the pending mouse events: the stick
after the loop and the events sent. -/
def drain_mouse (mouse_acc : ℚ) : Stick → List input_event → Stick × List input_event
  | s, [] => (s, [])
  | s, ev :: rest =>
    let r := drain_mouse mouse_acc (mouse_acc_step mouse_acc s ev) rest
    (r.1, mouse_rules ev ++ r.2)

/-- The two `abs_dec` calls that end a cycle: first `ABS_RX` with `mouse_x`,
then `ABS_RY` with `mouse_y`. -/
def decay (s : Stick) : Stick × List input_event :=
  let dx := abs_dec ABS_RX MAX_ABS DEC_A DEC_B s.mouse_x
  let dy := abs_dec ABS_RY MAX_ABS DEC_A DEC_B s.mouse_y
  ({ mouse_x := dx.1, mouse_y := dy.1 }, dx.2 ++ dy.2)

/-- One iteration of the `while (1)` body, given the keyboard events `ks` and
the mouse events `ms` that are pending in it. -/
def cycle (mouse_acc : ℚ) (s : Stick) (ks ms : List input_event) :
    Stick × List input_event :=
  let k := drain_keyboard ks
  let m := drain_mouse mouse_acc s ms
  let d := decay m.1
  (d.1, k ++ m.2 ++ d.2)

/-- The iterations of the `while (1)` loop over a list of cycles. -/
def main_loop (mouse_acc : ℚ) : Stick → List (List input_event × List input_event) →
    Stick × List input_event
  | s, [] => (s, [])
  | s, c :: rest =>
    let r := cycle mouse_acc s c.1 c.2
    let r1 := main_loop mouse_acc r.1 rest
    (r1.1, r.2 ++ r1.2)

/-- The stick at the start of `main`: `double mouse_x = 0, mouse_y = 0`. -/
def stick0 : Stick := { mouse_x := 0, mouse_y := 0 }

/-! ### The stick values at every point of the loop -/

/-- The successive values of the stick during the mouse loop: one entry after
each of the two `abs_acc` calls of each event. -/
def drain_mouse_trace (mouse_acc : ℚ) : Stick → List input_event → List Stick
  | _, [] => []
  | s, ev :: rest =>
    let s1 : Stick := { s with mouse_x := abs_acc ev ABS_X MAX_ABS mouse_acc s.mouse_x }
    let s2 : Stick := { s1 with mouse_y := abs_acc ev ABS_Y MAX_ABS mouse_acc s1.mouse_y }
    s1 :: s2 :: drain_mouse_trace mouse_acc s2 rest

/-- The successive values of the stick during the two `abs_dec` calls. -/
def decay_trace (s : Stick) : List Stick :=
  let s1 : Stick := { s with mouse_x := (abs_dec ABS_RX MAX_ABS DEC_A DEC_B s.mouse_x).1 }
  let s2 : Stick := { s1 with mouse_y := (abs_dec ABS_RY MAX_ABS DEC_A DEC_B s1.mouse_y).1 }
  [s1, s2]

/-- The successive values of the stick during one cycle. -/
def cycle_trace (mouse_acc : ℚ) (s : Stick) (ms : List input_event) : List Stick :=
  drain_mouse_trace mouse_acc s ms ++ decay_trace (drain_mouse mouse_acc s ms).1

/-- The successive values of the stick during the loop, cycle after cycle. -/
def main_loop_trace (mouse_acc : ℚ) : Stick → List (List input_event × List input_event) →
    List Stick
  | _, [] => []
  | s, c :: rest =>
    cycle_trace mouse_acc s c.2
      ++ main_loop_trace mouse_acc (cycle mouse_acc s c.1 c.2).1 rest

/-! ## The operations as the specification words them -/

/-- The function `clamp(x, lo, hi)`: `lo` below `lo`, `hi` above `hi`, `x` between. -/
def clamp (x lo hi : ℚ) : ℚ := if x < lo then lo else if hi < x then hi else x

/-- The operation `applyImpulse` in the words of the specification. -/
def applyImpulse_spec (axisState : ℚ) (motionDelta : ℤ) (maxMagnitude accelFactor : ℚ) : ℚ :=
  clamp (axisState + (motionDelta : ℚ) * accelFactor) (-maxMagnitude) maxMagnitude

/-- The iteration of `abs_dec` on one axis with no impulse in between: the state
after `n` calls. -/
def decay_iter (btn : ℕ) (max dec_a dec_b : ℚ) : ℕ → ℚ → ℚ
  | 0, v => v
  | n + 1, v => decay_iter btn max dec_a dec_b n (abs_dec btn max dec_a dec_b v).1

/-- Report atomicity of an output sequence: every event that is not a Sync event
is immediately followed by the Sync event; in particular the sequence does not
end with an event that is not a Sync event. -/
def report_atomic (out : List input_event) : Prop :=
  ∀ (i : ℕ) (e : input_event), out[i]? = some e → e.type ≠ EV_SYN →
    out[i + 1]? = some { type := EV_SYN, code := 0, value := 0 }

/-- An output sequence made of reports: each report is one event followed by
the Sync event. -/
inductive Framed : List input_event → Prop
  | nil : Framed []
  | report (e : input_event) (rest : List input_event) :
      Framed rest → Framed (e :: { type := EV_SYN, code := 0, value := 0 } :: rest)

/-- The stick invariant: both stick values have magnitude at most `MAX_ABS`. -/
def stick_bounded (s : Stick) : Prop := |s.mouse_x| ≤ 32767 ∧ |s.mouse_y| ≤ 32767

/-! ## The rule lists of `main` as tables -/

/-- A mapping rule: a `but_clk` call with its source key and target button, or
an `abs_clk` call with its source key, target axis and deflection. -/
inductive MappingRule where
  | ButtonRule (sourceKey targetButton : ℕ)
  | AxisDigitalRule (sourceKey targetAxis : ℕ) (deflection : ℤ)
deriving DecidableEq, Repr

/-- The source key of a rule: the code that the call compares with the code of
the input event. -/
def MappingRule.sourceKey : MappingRule → ℕ
  | .ButtonRule k _ => k
  | .AxisDigitalRule k _ _ => k

/-- The call that a rule stands for, at an input event. -/
def MappingRule.apply (ev : input_event) : MappingRule → List input_event
  | .ButtonRule k b => but_clk ev k b
  | .AxisDigitalRule k a d => abs_clk ev k a d

/-- The calls of a table of rules at one input event, in the order of the table. -/
def translateDigital (ev : input_event) : List MappingRule → List input_event
  | [] => []
  | r :: rest => r.apply ev ++ translateDigital ev rest

/-- The twenty calls of the keyboard loop of `main`, as a table. -/
def keyboard_table : List MappingRule :=
  [.ButtonRule KEY_LEFTALT BTN_A,
   .ButtonRule KEY_SPACE BTN_B,
   .ButtonRule KEY_X BTN_X,
   .ButtonRule KEY_C BTN_Y,
   .ButtonRule KEY_LEFTSHIFT BTN_THUMBL,
   .ButtonRule KEY_Q BTN_DPAD_LEFT,
   .ButtonRule KEY_E BTN_DPAD_RIGHT,
   .ButtonRule KEY_R BTN_DPAD_UP,
   .ButtonRule KEY_F BTN_DPAD_DOWN,
   .ButtonRule KEY_I BTN_SELECT,
   .ButtonRule KEY_O BTN_START,
   .ButtonRule KEY_P BTN_MODE,
   .ButtonRule KEY_LEFT BTN_DPAD_LEFT,
   .ButtonRule KEY_RIGHT BTN_DPAD_RIGHT,
   .ButtonRule KEY_UP BTN_DPAD_UP,
   .ButtonRule KEY_DOWN BTN_DPAD_DOWN,
   .AxisDigitalRule KEY_A ABS_X (-MAX_ABS),
   .AxisDigitalRule KEY_D ABS_X MAX_ABS,
   .AxisDigitalRule KEY_W ABS_Y (-MAX_ABS),
   .AxisDigitalRule KEY_S ABS_Y MAX_ABS]

/-- The five `but_clk` calls of the mouse loop of `main`, as a table. -/
def mouse_table : List MappingRule :=
  [.ButtonRule BTN_LEFT BTN_TR2,
   .ButtonRule BTN_RIGHT BTN_TL2,
   .ButtonRule BTN_MIDDLE BTN_THUMBR,
   .ButtonRule BTN_EXTRA BTN_TL,
   .ButtonRule BTN_SIDE BTN_TR]

/-- The source keys of the keyboard rule list of `main`, in order. -/
def keyboard_sources : List ℕ :=
  [KEY_LEFTALT, KEY_SPACE, KEY_X, KEY_C, KEY_LEFTSHIFT, KEY_Q, KEY_E, KEY_R, KEY_F, KEY_I,
   KEY_O, KEY_P, KEY_LEFT, KEY_RIGHT, KEY_UP, KEY_DOWN, KEY_A, KEY_D, KEY_W, KEY_S]

/-- The source buttons of the mouse rule list of `main`, in order. -/
def mouse_sources : List ℕ := [BTN_LEFT, BTN_RIGHT, BTN_MIDDLE, BTN_EXTRA, BTN_SIDE]

/-! ## The output device -/

/-- The key capabilities that `write_device` registers: the codes of its
`UI_SET_KEYBIT` calls, in order. -/
def write_device_keybits : List ℕ :=
  [BTN_A, BTN_B, BTN_X, BTN_Y, BTN_TL, BTN_TR, BTN_TL2, BTN_TR2, BTN_START, BTN_SELECT,
   BTN_THUMBL, BTN_THUMBR, BTN_DPAD_UP, BTN_DPAD_DOWN, BTN_DPAD_LEFT, BTN_DPAD_RIGHT]

/-- The digital buttons of the virtual gamepad as the specification lists them:
A, B, X, Y, TL, TR, TL2, TR2, THUMBL, THUMBR, START, SELECT, MODE and the four
directions of the D-pad. -/
def spec_buttons : List ℕ :=
  [BTN_A, BTN_B, BTN_X, BTN_Y, BTN_TL, BTN_TR, BTN_TL2, BTN_TR2, BTN_THUMBL, BTN_THUMBR,
   BTN_START, BTN_SELECT, BTN_MODE, BTN_DPAD_UP, BTN_DPAD_DOWN, BTN_DPAD_LEFT,
   BTN_DPAD_RIGHT]

/-! ## The translation loop with the outcome of every `write` -/

/-- The gamepad side of a run: the events handed to `write` so far, the events
that `write` accepted, and the number of lines `Failed to write event.` printed. -/
structure Gamepad where
  attempted : List input_event
  written : List input_event
  failures : ℕ
deriving DecidableEq, Repr

/-- The gamepad before the first `write`. -/
def gamepad0 : Gamepad := { attempted := [], written := [], failures := 0 }

/-- The function `send_event` with the outcome of its `write`: `ok n` tells
whether the `write` number `n` of the run succeeds. When `write` returns `-1`
the function prints a line; it returns nothing to its caller in either case. -/
def send_event_w (ok : ℕ → Bool) (g : Gamepad) (type code : ℕ) (value : ℤ) : Gamepad :=
  let gamepad_event : input_event := { type := type, code := code, value := value }
  if ok g.attempted.length then
    { attempted := g.attempted ++ [gamepad_event],
      written := g.written ++ [gamepad_event],
      failures := g.failures }
  else
    { attempted := g.attempted ++ [gamepad_event],
      written := g.written,
      failures := g.failures + 1 }

/-- The function `but_clk` over `send_event_w`. -/
def but_clk_w (ok : ℕ → Bool) (g : Gamepad) (in_ev : input_event) (in_key out_key : ℕ) :
    Gamepad :=
  if in_ev.code = in_key ∧ in_ev.value ≠ 2 then
    send_event_w ok (send_event_w ok g EV_KEY out_key in_ev.value) EV_SYN 0 0
  else g

/-- The function `abs_clk` over `send_event_w`. -/
def abs_clk_w (ok : ℕ → Bool) (g : Gamepad) (in_ev : input_event) (key btn : ℕ) (value : ℤ) :
    Gamepad :=
  if in_ev.code = key then
    send_event_w ok
      (send_event_w ok g EV_ABS btn (if in_ev.value = 1 ∨ in_ev.value = 2 then value else 0))
      EV_SYN 0 0
  else g

/-- The function `abs_dec` over `send_event_w`. -/
def abs_dec_w (ok : ℕ → Bool) (g : Gamepad) (btn : ℕ) (max dec_a dec_b val : ℚ) :
    ℚ × Gamepad :=
  let val1 := val * (dec_a - (|val| / max * dec_b))
  (val1, send_event_w ok (send_event_w ok g EV_ABS btn (double_to_int (c_round val1))) EV_SYN 0 0)

/-- The twenty calls made for one keyboard event, over `send_event_w`. -/
def keyboard_rules_w (ok : ℕ → Bool) (g : Gamepad) (ev : input_event) : Gamepad :=
  let g := but_clk_w ok g ev KEY_LEFTALT BTN_A
  let g := but_clk_w ok g ev KEY_SPACE BTN_B
  let g := but_clk_w ok g ev KEY_X BTN_X
  let g := but_clk_w ok g ev KEY_C BTN_Y
  let g := but_clk_w ok g ev KEY_LEFTSHIFT BTN_THUMBL
  let g := but_clk_w ok g ev KEY_Q BTN_DPAD_LEFT
  let g := but_clk_w ok g ev KEY_E BTN_DPAD_RIGHT
  let g := but_clk_w ok g ev KEY_R BTN_DPAD_UP
  let g := but_clk_w ok g ev KEY_F BTN_DPAD_DOWN
  let g := but_clk_w ok g ev KEY_I BTN_SELECT
  let g := but_clk_w ok g ev KEY_O BTN_START
  let g := but_clk_w ok g ev KEY_P BTN_MODE
  let g := but_clk_w ok g ev KEY_LEFT BTN_DPAD_LEFT
  let g := but_clk_w ok g ev KEY_RIGHT BTN_DPAD_RIGHT
  let g := but_clk_w ok g ev KEY_UP BTN_DPAD_UP
  let g := but_clk_w ok g ev KEY_DOWN BTN_DPAD_DOWN
  let g := abs_clk_w ok g ev KEY_A ABS_X (-MAX_ABS)
  let g := abs_clk_w ok g ev KEY_D ABS_X MAX_ABS
  let g := abs_clk_w ok g ev KEY_W ABS_Y (-MAX_ABS)
  let g := abs_clk_w ok g ev KEY_S ABS_Y MAX_ABS
  g

/-- The seven calls made for one mouse event, over `send_event_w`. -/
def mouse_event_w (ok : ℕ → Bool) (mouse_acc : ℚ) (s : Stick) (g : Gamepad)
    (ev : input_event) : Stick × Gamepad :=
  let g := but_clk_w ok g ev BTN_LEFT BTN_TR2
  let g := but_clk_w ok g ev BTN_RIGHT BTN_TL2
  let g := but_clk_w ok g ev BTN_MIDDLE BTN_THUMBR
  let g := but_clk_w ok g ev BTN_EXTRA BTN_TL
  let g := but_clk_w ok g ev BTN_SIDE BTN_TR
  (mouse_acc_step mouse_acc s ev, g)

/-- The keyboard loop over `send_event_w`. -/
def drain_keyboard_w (ok : ℕ → Bool) : Gamepad → List input_event → Gamepad
  | g, [] => g
  | g, ev :: rest => drain_keyboard_w ok (keyboard_rules_w ok g ev) rest

/-- The mouse loop over `send_event_w`. -/
def drain_mouse_w (ok : ℕ → Bool) (mouse_acc : ℚ) :
    Stick → Gamepad → List input_event → Stick × Gamepad
  | s, g, [] => (s, g)
  | s, g, ev :: rest =>
    let r := mouse_event_w ok mouse_acc s g ev
    drain_mouse_w ok mouse_acc r.1 r.2 rest

/-- The two `abs_dec` calls that end a cycle, over `send_event_w`. -/
def decay_w (ok : ℕ → Bool) (s : Stick) (g : Gamepad) : Stick × Gamepad :=
  let dx := abs_dec_w ok g ABS_RX MAX_ABS DEC_A DEC_B s.mouse_x
  let dy := abs_dec_w ok dx.2 ABS_RY MAX_ABS DEC_A DEC_B s.mouse_y
  ({ mouse_x := dx.1, mouse_y := dy.1 }, dy.2)

/-- One iteration of the `while (1)` body over `send_event_w`. -/
def cycle_w (ok : ℕ → Bool) (mouse_acc : ℚ) (s : Stick) (g : Gamepad)
    (ks ms : List input_event) : Stick × Gamepad :=
  let g1 := drain_keyboard_w ok g ks
  let m := drain_mouse_w ok mouse_acc s g1 ms
  decay_w ok m.1 m.2

/-- The iterations of the `while (1)` loop over `send_event_w`. -/
def main_loop_w (ok : ℕ → Bool) (mouse_acc : ℚ) :
    Stick → Gamepad → List (List input_event × List input_event) → Stick × Gamepad
  | s, g, [] => (s, g)
  | s, g, c :: rest =>
    let r := cycle_w ok mouse_acc s g c.1 c.2
    main_loop_w ok mouse_acc r.1 r.2 rest

/-- Every event handed to `write` was either accepted or reported by one line
`Failed to write event.`. -/
def Gamepad.balanced (g : Gamepad) : Prop :=
  g.failures + g.written.length = g.attempted.length

/-! ## Double-precision arithmetic

The claims on the decay that depend on the rounding of the `double` operations
are stated on the model below: IEEE 754 binary64 with rounding to nearest, ties
to even, subnormal numbers, infinities and NaN. A finite double is the rational
it denotes; the sign of a zero is not modelled. -/

/-- The power `2 ^ e` of two with an integer exponent. -/
def pow2 (e : ℤ) : ℚ :=
  if 0 ≤ e then ((2 ^ e.toNat : ℕ) : ℚ) else 1 / ((2 ^ (-e).toNat : ℕ) : ℚ)

/-- The number of halvings that take `n` below 2, with `fuel` halvings allowed. -/
def log2_aux : ℕ → ℕ → ℕ
  | 0, _ => 0
  | fuel + 1, n => if n < 2 then 0 else log2_aux fuel (n / 2) + 1

/-- The binary logarithm of a natural number, rounded down (`0` at `0`). -/
def nat_log2 (n : ℕ) : ℕ := log2_aux n n

/-- The binary exponent of a positive rational `x`: the integer `e` with
`2 ^ e ≤ x < 2 ^ (e + 1)`. -/
def ilog2 (x : ℚ) : ℤ :=
  let k : ℤ := (nat_log2 x.num.natAbs : ℤ) - (nat_log2 x.den : ℤ)
  if pow2 k ≤ x then k else k - 1

/-- Rounding of a rational to the nearest integer, a tie going to the even one. -/
def rne (t : ℚ) : ℤ :=
  if t - ⌊t⌋ < 1 / 2 then ⌊t⌋
  else if 1 / 2 < t - ⌊t⌋ then ⌊t⌋ + 1
  else if ⌊t⌋ % 2 = 0 then ⌊t⌋ else ⌊t⌋ + 1

/-- The spacing of the doubles around a positive rational `x`: `2 ^ (e - 52)`
for a binary exponent `e` of at least `-1022`, and `2 ^ (-1074)` below (the
subnormal range). -/
def quantum (x : ℚ) : ℚ := pow2 (max (ilog2 x) (-1022) - 52)

/-- Rounding of a nonnegative rational to the grid of the doubles, to nearest
and ties to even, with no bound on the exponent from above. -/
def fl_pos (x : ℚ) : ℚ := if x = 0 then 0 else (rne (x / quantum x) : ℚ) * quantum x

/-- Rounding of a rational to the grid of the doubles (IEEE 754 binary64, round
to nearest, ties to even), with no bound on the exponent from above; rounding is
symmetric in the sign. -/
def fl (x : ℚ) : ℚ := if 0 ≤ x then fl_pos x else -fl_pos (-x)

/-- The largest finite double, `(2 ^ 53 - 1) * 2 ^ 971`. -/
def MAX_DOUBLE : ℚ := ((2 ^ 53 - 1 : ℕ) : ℚ) * ((2 ^ 971 : ℕ) : ℚ)

/-- A rational that is a finite double. -/
def IsDouble (x : ℚ) : Prop := fl x = x ∧ |x| ≤ MAX_DOUBLE

instance IsDouble.decidable (x : ℚ) : Decidable (IsDouble x) := by
  unfold IsDouble
  infer_instance

/-- A value of type `double`: a finite double, an infinity with its sign, or a
NaN. The sign of zero is not modelled. -/
inductive F64 where
  | fin (q : ℚ)
  | inf (negative : Bool)
  | nan
deriving DecidableEq, Repr

/-- The double that an exact result `x` is rounded to: the nearest double, or an
infinity when the rounded magnitude exceeds `MAX_DOUBLE`. -/
def round_f64 (x : ℚ) : F64 :=
  if |fl x| ≤ MAX_DOUBLE then .fin (fl x) else .inf (decide (x < 0))

/-- The function `abs` at a `double`. -/
def F64.abs : F64 → F64
  | .fin q => .fin |q|
  | .inf _ => .inf false
  | .nan => .nan

/-- The product of two doubles. -/
def F64.mul : F64 → F64 → F64
  | .nan, _ => .nan
  | _, .nan => .nan
  | .fin a, .fin b => round_f64 (a * b)
  | .fin a, .inf s => if a = 0 then .nan else .inf (xor (decide (a < 0)) s)
  | .inf s, .fin b => if b = 0 then .nan else .inf (xor s (decide (b < 0)))
  | .inf s, .inf t => .inf (xor s t)

/-- The quotient of two doubles; a zero divisor counts as `+0`. -/
def F64.div : F64 → F64 → F64
  | .nan, _ => .nan
  | _, .nan => .nan
  | .fin a, .fin b =>
    if b = 0 then (if a = 0 then .nan else .inf (decide (a < 0))) else round_f64 (a / b)
  | .fin _, .inf _ => .fin 0
  | .inf s, .fin b => .inf (xor s (decide (b < 0)))
  | .inf _, .inf _ => .nan

/-- The difference of two doubles. -/
def F64.sub : F64 → F64 → F64
  | .nan, _ => .nan
  | _, .nan => .nan
  | .fin a, .fin b => round_f64 (a - b)
  | .fin _, .inf s => .inf (!s)
  | .inf s, .fin _ => .inf s
  | .inf s, .inf t => if s = t then .nan else .inf s

/-- The order `<=` of the doubles: a NaN is not comparable. -/
def F64.le : F64 → F64 → Prop
  | .nan, _ => False
  | _, .nan => False
  | .fin a, .fin b => a ≤ b
  | .fin _, .inf t => t = false
  | .inf s, .fin _ => s = true
  | .inf s, .inf t => s = true ∨ t = false

instance F64.le.decidable (a b : F64) : Decidable (F64.le a b) := by
  cases a <;> cases b <;> simp only [F64.le] <;> infer_instance

/-- The C `round` at a double. -/
def F64.round : F64 → F64
  | .fin q => .fin ((c_round q : ℤ) : ℚ)
  | .inf s => .inf s
  | .nan => .nan

/-- The conversion `(int)` of a double: truncation towards zero, and
`double_to_int` for the range; the result for an infinity or a NaN, undefined in
C++, is that of the x86-64 instruction, `INT_MIN`. -/
def F64.to_int : F64 → ℤ
  | .fin q => double_to_int (if 0 ≤ q then ⌊q⌋ else ⌈q⌉)
  | .inf _ => INT_MIN
  | .nan => INT_MIN

/-! ## The decay in double arithmetic -/

/-- The factor `dec_a - (abs(*val) / max * dec_b)` of `abs_dec`, every operation
rounded to a double. -/
def decay_factor_f64 (max dec_a dec_b val : F64) : F64 :=
  F64.sub dec_a (F64.mul (F64.div (F64.abs val) max) dec_b)

/-- The function `abs_dec` in double arithmetic: every operation of
`*val *= dec_a - (abs(*val) / max * dec_b)` is rounded to a double. -/
def abs_dec_f64 (btn : ℕ) (max dec_a dec_b val : F64) : F64 × List input_event :=
  let val1 := F64.mul val (decay_factor_f64 max dec_a dec_b val)
  (val1, send_event EV_ABS btn (F64.to_int (F64.round val1)) ++ send_event EV_SYN 0 0)

/-- The constant `MAX_ABS` converted to `double` for the parameter `max`. -/
def MAX_ABS_f64 : F64 := round_f64 (MAX_ABS : ℚ)

/-- The constant `DEC_A`: the double nearest to `0.999`. -/
def DEC_A_f64 : F64 := round_f64 (999 / 1000)

/-- The constant `DEC_B`: the double nearest to `0.01`. -/
def DEC_B_f64 : F64 := round_f64 (1 / 100)

/-- The iteration of `abs_dec_f64` on one axis with no impulse in between: the
state after `n` calls. -/
def decay_iter_f64 (btn : ℕ) (max dec_a dec_b : F64) : ℕ → F64 → F64
  | 0, v => v
  | n + 1, v => decay_iter_f64 btn max dec_a dec_b n (abs_dec_f64 btn max dec_a dec_b v).1

/-! ## Auxiliary facts -/

theorem std_max_eq (a b : ℚ) : std_max a b = max a b := by
  unfold std_max
  split_ifs with h
  · exact (max_eq_right h.le).symm
  · exact (max_eq_left (not_lt.mp h)).symm

theorem std_min_eq (a b : ℚ) : std_min a b = min a b := by
  unfold std_min
  split_ifs with h
  · exact (min_eq_right h.le).symm
  · exact (min_eq_left (not_lt.mp h)).symm

theorem double_to_int_of_fits (z : ℤ) (h : INT_MIN ≤ z ∧ z ≤ INT_MAX) :
    double_to_int z = z := by
  unfold double_to_int
  rw [if_pos h]

theorem double_to_int_range (z : ℤ) :
    INT_MIN ≤ double_to_int z ∧ double_to_int z ≤ INT_MAX := by
  unfold double_to_int
  split_ifs with h
  · exact h
  · exact ⟨le_refl _, by decide⟩

theorem clamp_eq (x m : ℚ) (hm : 0 ≤ m) : std_max (-m) (std_min m x) = clamp x (-m) m := by
  rw [std_max_eq, std_min_eq]
  unfold clamp
  split_ifs with h1 h2
  · rw [min_eq_right (by linarith), max_eq_left h1.le]
  · rw [min_eq_left h2.le, max_eq_right (by linarith)]
  · rw [min_eq_right (not_lt.mp h2), max_eq_right (not_lt.mp h1)]

theorem clamp_bounds (x m : ℚ) (hm : 0 ≤ m) :
    -m ≤ std_max (-m) (std_min m x) ∧ std_max (-m) (std_min m x) ≤ m := by
  rw [std_max_eq, std_min_eq]
  exact ⟨le_max_left _ _, max_le (by linarith) (min_le_left _ _)⟩

theorem abs_acc_abs_le (in_ev : input_event) (key : ℕ) (m acc val : ℚ) (hm : 0 ≤ m)
    (hval : |val| ≤ m) : |abs_acc in_ev key m acc val| ≤ m := by
  unfold abs_acc
  split_ifs with h
  · exact abs_le.mpr (clamp_bounds _ _ hm)
  · exact hval

/-- The factor by which `abs_dec` multiplies the state lies between
`dec_a - dec_b` and `dec_a` as long as the state is within `[-max, max]`. -/
theorem decay_factor_bounds (m a b v : ℚ) (hm : 0 < m) (hb : 0 ≤ b) (hv : |v| ≤ m) :
    a - b ≤ a - (|v| / m * b) ∧ a - (|v| / m * b) ≤ a := by
  have h0 : 0 ≤ |v| / m := div_nonneg (abs_nonneg v) hm.le
  have h1 : |v| / m ≤ 1 := (div_le_one hm).mpr hv
  constructor
  · nlinarith
  · nlinarith

theorem abs_dec_fst (btn : ℕ) (m a b v : ℚ) :
    (abs_dec btn m a b v).1 = v * (a - (|v| / m * b)) := rfl

theorem abs_dec_snd (btn : ℕ) (m a b v : ℚ) :
    (abs_dec btn m a b v).2
      = [{ type := EV_ABS, code := btn,
           value := double_to_int (c_round (v * (a - (|v| / m * b)))) },
         { type := EV_SYN, code := 0, value := 0 }] := rfl

/-- With the constants of the program one `abs_dec` call does not increase the
magnitude of a state within `[-32767, 32767]`. -/
theorem abs_dec_abs_le (btn : ℕ) (v : ℚ) (hv : |v| ≤ 32767) :
    |(abs_dec btn MAX_ABS DEC_A DEC_B v).1| ≤ |v| := by
  have hM : ((MAX_ABS : ℤ) : ℚ) = 32767 := by norm_num [MAX_ABS]
  rw [abs_dec_fst, hM]
  obtain ⟨h1, h2⟩ := decay_factor_bounds 32767 DEC_A DEC_B v (by norm_num)
    (by norm_num [DEC_B]) hv
  have h3 : 0 ≤ DEC_A - |v| / 32767 * DEC_B := by
    refine le_trans ?_ h1
    norm_num [DEC_A, DEC_B]
  have h4 : DEC_A - |v| / 32767 * DEC_B ≤ 1 := by
    refine le_trans h2 ?_
    norm_num [DEC_A]
  rw [abs_mul, abs_of_nonneg h3]
  exact mul_le_of_le_one_right (abs_nonneg v) h4

theorem c_round_abs_le (x : ℚ) (n : ℕ) (hx : |x| ≤ n) : |c_round x| ≤ n := by
  obtain ⟨h1, h2⟩ := abs_le.mp hx
  unfold c_round
  rw [abs_le]
  split_ifs with h
  · constructor
    · have : (0 : ℤ) ≤ ⌊x + 1 / 2⌋ := Int.floor_nonneg.mpr (by linarith)
      have hn : (0 : ℤ) ≤ n := Int.natCast_nonneg n
      linarith
    · have : ⌊x + 1 / 2⌋ < (n : ℤ) + 1 := by
        rw [Int.floor_lt]
        push_cast
        linarith
      linarith
  · have hx0 : x < 0 := not_le.mp h
    constructor
    · have : -(n : ℤ) - 1 < ⌈x - 1 / 2⌉ := by
        rw [Int.lt_ceil]
        push_cast
        linarith
      linarith
    · have : ⌈x - 1 / 2⌉ ≤ 0 := by
        rw [Int.ceil_le]
        push_cast
        linarith
      have hn : (0 : ℤ) ≤ n := Int.natCast_nonneg n
      linarith

/-- What `abs_dec` sends for a state within `[-32767, 32767]`: the rounded new
state, unchanged by the conversion to `int`, of magnitude at most 32767. -/
theorem abs_dec_emits (btn : ℕ) (v : ℚ) (hv : |v| ≤ 32767) :
    (abs_dec btn MAX_ABS DEC_A DEC_B v).2
        = [{ type := EV_ABS, code := btn,
             value := c_round (abs_dec btn MAX_ABS DEC_A DEC_B v).1 },
           { type := EV_SYN, code := 0, value := 0 }] ∧
      |c_round (abs_dec btn MAX_ABS DEC_A DEC_B v).1| ≤ 32767 := by
  have hb : |(abs_dec btn MAX_ABS DEC_A DEC_B v).1| ≤ ((32767 : ℕ) : ℚ) := by
    push_cast
    exact le_trans (abs_dec_abs_le btn v hv) hv
  have hr := c_round_abs_le _ 32767 hb
  push_cast at hr
  refine ⟨?_, hr⟩
  obtain ⟨h1, h2⟩ := abs_le.mp hr
  rw [abs_dec_snd, ← abs_dec_fst, double_to_int_of_fits]
  unfold INT_MIN INT_MAX
  constructor <;> linarith

/-! ### The stick invariant along the loop -/

theorem stick0_bounded : stick_bounded stick0 := by
  unfold stick_bounded stick0
  norm_num

theorem mouse_acc_step_bounded (acc : ℚ) (s : Stick) (ev : input_event)
    (hs : stick_bounded s) : stick_bounded (mouse_acc_step acc s ev) := by
  have hM : ((MAX_ABS : ℤ) : ℚ) = 32767 := by norm_num [MAX_ABS]
  unfold mouse_acc_step stick_bounded
  rw [hM]
  exact ⟨abs_acc_abs_le ev ABS_X 32767 acc s.mouse_x (by norm_num) hs.1,
    abs_acc_abs_le ev ABS_Y 32767 acc s.mouse_y (by norm_num) hs.2⟩

theorem drain_mouse_bounded (acc : ℚ) (ms : List input_event) :
    ∀ s : Stick, stick_bounded s → stick_bounded (drain_mouse acc s ms).1 := by
  induction ms with
  | nil => intro s hs; exact hs
  | cons ev rest ih =>
    intro s hs
    exact ih _ (mouse_acc_step_bounded acc s ev hs)

theorem drain_mouse_trace_bounded (acc : ℚ) (ms : List input_event) :
    ∀ s : Stick, stick_bounded s → ∀ t ∈ drain_mouse_trace acc s ms, stick_bounded t := by
  induction ms with
  | nil => intro s _ t ht; simp [drain_mouse_trace] at ht
  | cons ev rest ih =>
    intro s hs t ht
    have h2 := mouse_acc_step_bounded acc s ev hs
    simp only [drain_mouse_trace, List.mem_cons] at ht
    rcases ht with ht | ht | ht
    · subst ht
      exact ⟨h2.1, hs.2⟩
    · subst ht
      exact h2
    · exact ih _ h2 t ht

theorem decay_bounded (s : Stick) (hs : stick_bounded s) : stick_bounded (decay s).1 :=
  ⟨le_trans (abs_dec_abs_le ABS_RX s.mouse_x hs.1) hs.1,
    le_trans (abs_dec_abs_le ABS_RY s.mouse_y hs.2) hs.2⟩

theorem decay_trace_bounded (s : Stick) (hs : stick_bounded s) :
    ∀ t ∈ decay_trace s, stick_bounded t := by
  intro t ht
  simp only [decay_trace, List.mem_cons, List.mem_singleton, List.mem_nil_iff, or_false] at ht
  rcases ht with ht | ht
  · subst ht
    exact ⟨le_trans (abs_dec_abs_le ABS_RX s.mouse_x hs.1) hs.1, hs.2⟩
  · subst ht
    exact decay_bounded s hs

theorem cycle_bounded (acc : ℚ) (s : Stick) (ks ms : List input_event)
    (hs : stick_bounded s) : stick_bounded (cycle acc s ks ms).1 :=
  decay_bounded _ (drain_mouse_bounded acc ms s hs)

theorem cycle_trace_bounded (acc : ℚ) (s : Stick) (ms : List input_event)
    (hs : stick_bounded s) : ∀ t ∈ cycle_trace acc s ms, stick_bounded t := by
  intro t ht
  unfold cycle_trace at ht
  rcases List.mem_append.mp ht with h | h
  · exact drain_mouse_trace_bounded acc ms s hs t h
  · exact decay_trace_bounded _ (drain_mouse_bounded acc ms s hs) t h

theorem main_loop_trace_bounded (acc : ℚ) (cycles : List (List input_event × List input_event)) :
    ∀ s : Stick, stick_bounded s → ∀ t ∈ main_loop_trace acc s cycles, stick_bounded t := by
  induction cycles with
  | nil => intro s _ t ht; simp [main_loop_trace] at ht
  | cons c rest ih =>
    intro s hs t ht
    simp only [main_loop_trace] at ht
    rcases List.mem_append.mp ht with h | h
    · exact cycle_trace_bounded acc s c.2 hs t h
    · exact ih _ (cycle_bounded acc s c.1 c.2 hs) t h

theorem main_loop_bounded (acc : ℚ) (cycles : List (List input_event × List input_event)) :
    ∀ s : Stick, stick_bounded s → stick_bounded (main_loop acc s cycles).1 := by
  induction cycles with
  | nil => intro s hs; exact hs
  | cons c rest ih =>
    intro s hs
    exact ih _ (cycle_bounded acc s c.1 c.2 hs)

/-! The trace functions follow the loop: the last stick of a trace is the stick
that the corresponding loop function returns. -/

theorem drain_mouse_trace_last (acc : ℚ) (ms : List input_event) :
    ∀ s : Stick, (s :: drain_mouse_trace acc s ms).getLast? = some (drain_mouse acc s ms).1 := by
  induction ms with
  | nil => intro s; rfl
  | cons ev rest ih =>
    intro s
    simp only [drain_mouse_trace, List.getLast?_cons_cons]
    exact ih (mouse_acc_step acc s ev)

theorem getLast?_link (l1 l2 : List Stick) (a b : Stick)
    (h : (a :: l1).getLast? = some b) : (a :: (l1 ++ l2)).getLast? = (b :: l2).getLast? := by
  cases l2 with
  | nil => simpa using h
  | cons x l2 =>
    rw [← List.cons_append, List.getLast?_append_cons, List.getLast?_cons_cons]

theorem cycle_trace_last (acc : ℚ) (s : Stick) (ks ms : List input_event) :
    (s :: cycle_trace acc s ms).getLast? = some (cycle acc s ks ms).1 := by
  unfold cycle_trace
  rw [getLast?_link _ _ _ _ (drain_mouse_trace_last acc ms s)]
  rfl

theorem main_loop_trace_last (acc : ℚ) (cycles : List (List input_event × List input_event)) :
    ∀ s : Stick,
      (s :: main_loop_trace acc s cycles).getLast? = some (main_loop acc s cycles).1 := by
  induction cycles with
  | nil => intro s; rfl
  | cons c rest ih =>
    intro s
    simp only [main_loop_trace]
    rw [getLast?_link _ _ _ _ (cycle_trace_last acc s c.1 c.2)]
    exact ih _

/-! ### The events that the loop can send -/

theorem but_clk_forall (P : input_event → Prop) (ev : input_event) (k b : ℕ)
    (hkey : ev.value ≠ 2 → P { type := EV_KEY, code := b, value := ev.value })
    (hsyn : P { type := EV_SYN, code := 0, value := 0 }) :
    ∀ e ∈ but_clk ev k b, P e := by
  intro e he
  unfold but_clk send_event at he
  split_ifs at he with h
  · simp only [List.singleton_append, List.mem_cons, List.mem_singleton, List.mem_nil_iff,
      or_false] at he
    rcases he with he | he
    · rw [he]; exact hkey h.2
    · rw [he]; exact hsyn
  · simp at he

theorem abs_clk_forall (P : input_event → Prop) (ev : input_event) (k b : ℕ) (d : ℤ)
    (habs : P { type := EV_ABS, code := b, value := d })
    (habs0 : P { type := EV_ABS, code := b, value := 0 })
    (hsyn : P { type := EV_SYN, code := 0, value := 0 }) :
    ∀ e ∈ abs_clk ev k b d, P e := by
  intro e he
  unfold abs_clk send_event at he
  split_ifs at he with h h1
  · simp only [List.singleton_append, List.mem_cons, List.mem_singleton, List.mem_nil_iff,
      or_false] at he
    rcases he with he | he
    · rw [he]; exact habs
    · rw [he]; exact hsyn
  · simp only [List.singleton_append, List.mem_cons, List.mem_singleton, List.mem_nil_iff,
      or_false] at he
    rcases he with he | he
    · rw [he]; exact habs0
    · rw [he]; exact hsyn
  · simp at he

theorem keyboard_rules_forall (P : input_event → Prop) (ev : input_event)
    (hkey : ev.value ≠ 2 → ∀ b, P { type := EV_KEY, code := b, value := ev.value })
    (habs : ∀ (b : ℕ) (d : ℤ), |d| ≤ 32767 → P { type := EV_ABS, code := b, value := d })
    (hsyn : P { type := EV_SYN, code := 0, value := 0 }) :
    ∀ e ∈ keyboard_rules ev, P e := by
  have hb : ∀ k b, ∀ e ∈ but_clk ev k b, P e :=
    fun k b => but_clk_forall P ev k b (fun h => hkey h b) hsyn
  have ha : ∀ k b (d : ℤ), |d| ≤ 32767 → ∀ e ∈ abs_clk ev k b d, P e :=
    fun k b d hd => abs_clk_forall P ev k b d (habs b d hd) (habs b 0 (by norm_num)) hsyn
  have hp : |MAX_ABS| ≤ 32767 := by decide
  have hn : |(-MAX_ABS)| ≤ 32767 := by decide
  unfold keyboard_rules
  simp only [List.forall_mem_append]
  refine ⟨⟨⟨⟨⟨⟨⟨⟨⟨⟨⟨⟨⟨⟨⟨⟨⟨⟨⟨hb _ _, hb _ _⟩, hb _ _⟩, hb _ _⟩, hb _ _⟩, hb _ _⟩, hb _ _⟩,
    hb _ _⟩, hb _ _⟩, hb _ _⟩, hb _ _⟩, hb _ _⟩, hb _ _⟩, hb _ _⟩, hb _ _⟩, hb _ _⟩,
    ha _ _ _ hn⟩, ha _ _ _ hp⟩, ha _ _ _ hn⟩, ha _ _ _ hp⟩

theorem mouse_rules_forall (P : input_event → Prop) (ev : input_event)
    (hkey : ev.value ≠ 2 → ∀ b, P { type := EV_KEY, code := b, value := ev.value })
    (hsyn : P { type := EV_SYN, code := 0, value := 0 }) :
    ∀ e ∈ mouse_rules ev, P e := by
  have hb : ∀ k b, ∀ e ∈ but_clk ev k b, P e :=
    fun k b => but_clk_forall P ev k b (fun h => hkey h b) hsyn
  unfold mouse_rules
  simp only [List.forall_mem_append]
  exact ⟨⟨⟨⟨hb _ _, hb _ _⟩, hb _ _⟩, hb _ _⟩, hb _ _⟩

theorem drain_keyboard_forall (P : input_event → Prop)
    (hkey : ∀ (b : ℕ) (v : ℤ), v ≠ 2 → P { type := EV_KEY, code := b, value := v })
    (habs : ∀ (b : ℕ) (d : ℤ), |d| ≤ 32767 → P { type := EV_ABS, code := b, value := d })
    (hsyn : P { type := EV_SYN, code := 0, value := 0 }) (ks : List input_event) :
    ∀ e ∈ drain_keyboard ks, P e := by
  induction ks with
  | nil => intro e he; simp [drain_keyboard] at he
  | cons ev rest ih =>
    intro e he
    simp only [drain_keyboard] at he
    rcases List.mem_append.mp he with h | h
    · exact keyboard_rules_forall P ev (fun hv b => hkey b _ hv) habs hsyn e h
    · exact ih e h

theorem drain_mouse_forall (P : input_event → Prop)
    (hkey : ∀ (b : ℕ) (v : ℤ), v ≠ 2 → P { type := EV_KEY, code := b, value := v })
    (hsyn : P { type := EV_SYN, code := 0, value := 0 }) (acc : ℚ) (ms : List input_event) :
    ∀ s : Stick, ∀ e ∈ (drain_mouse acc s ms).2, P e := by
  induction ms with
  | nil => intro s e he; simp [drain_mouse] at he
  | cons ev rest ih =>
    intro s e he
    simp only [drain_mouse] at he
    rcases List.mem_append.mp he with h | h
    · exact mouse_rules_forall P ev (fun hv b => hkey b _ hv) hsyn e h
    · exact ih _ e h

theorem decay_forall (P : input_event → Prop)
    (habs : ∀ (b : ℕ) (d : ℤ), |d| ≤ 32767 → P { type := EV_ABS, code := b, value := d })
    (hsyn : P { type := EV_SYN, code := 0, value := 0 }) (s : Stick) (hs : stick_bounded s) :
    ∀ e ∈ (decay s).2, P e := by
  intro e he
  obtain ⟨hx, hxr⟩ := abs_dec_emits ABS_RX s.mouse_x hs.1
  obtain ⟨hy, hyr⟩ := abs_dec_emits ABS_RY s.mouse_y hs.2
  simp only [decay, hx, hy, List.cons_append, List.nil_append, List.mem_cons,
    List.mem_singleton, List.mem_nil_iff, or_false] at he
  rcases he with he | he | he | he
  · rw [he]; exact habs _ _ hxr
  · rw [he]; exact hsyn
  · rw [he]; exact habs _ _ hyr
  · rw [he]; exact hsyn

theorem cycle_forall (P : input_event → Prop)
    (hkey : ∀ (b : ℕ) (v : ℤ), v ≠ 2 → P { type := EV_KEY, code := b, value := v })
    (habs : ∀ (b : ℕ) (d : ℤ), |d| ≤ 32767 → P { type := EV_ABS, code := b, value := d })
    (hsyn : P { type := EV_SYN, code := 0, value := 0 }) (acc : ℚ) (s : Stick)
    (ks ms : List input_event) (hs : stick_bounded s) :
    ∀ e ∈ (cycle acc s ks ms).2, P e := by
  intro e he
  simp only [cycle, List.mem_append] at he
  rcases he with (h | h) | h
  · exact drain_keyboard_forall P hkey habs hsyn ks e h
  · exact drain_mouse_forall P hkey hsyn acc ms s e h
  · exact decay_forall P habs hsyn _ (drain_mouse_bounded acc ms s hs) e h

/-- Every event that the loop sends from a bounded stick is a Button event whose
value is not 2, an Axis event of magnitude at most 32767, or the Sync event. -/
theorem main_loop_forall (P : input_event → Prop)
    (hkey : ∀ (b : ℕ) (v : ℤ), v ≠ 2 → P { type := EV_KEY, code := b, value := v })
    (habs : ∀ (b : ℕ) (d : ℤ), |d| ≤ 32767 → P { type := EV_ABS, code := b, value := d })
    (hsyn : P { type := EV_SYN, code := 0, value := 0 }) (acc : ℚ)
    (cycles : List (List input_event × List input_event)) :
    ∀ s : Stick, stick_bounded s → ∀ e ∈ (main_loop acc s cycles).2, P e := by
  induction cycles with
  | nil => intro s _ e he; simp [main_loop] at he
  | cons c rest ih =>
    intro s hs e he
    simp only [main_loop] at he
    rcases List.mem_append.mp he with h | h
    · exact cycle_forall P hkey habs hsyn acc s c.1 c.2 hs e h
    · exact ih _ (cycle_bounded acc s c.1 c.2 hs) e h

/-! ### Reports -/

theorem Framed.append {l1 l2 : List input_event} (h1 : Framed l1) (h2 : Framed l2) :
    Framed (l1 ++ l2) := by
  induction h1 with
  | nil => exact h2
  | report e rest _ ih => exact Framed.report e _ ih

theorem Framed.atomic {l : List input_event} (h : Framed l) : report_atomic l := by
  induction h with
  | nil =>
    intro i e he
    simp at he
  | report e0 rest _ ih =>
    intro i e he hne
    match i with
    | 0 => simp
    | 1 =>
      simp only [List.getElem?_cons_succ, List.getElem?_cons_zero, Option.some.injEq] at he
      rw [← he] at hne
      exact absurd rfl hne
    | i + 2 =>
      simp only [List.getElem?_cons_succ] at he ⊢
      exact ih i e he hne

theorem but_clk_framed (ev : input_event) (k b : ℕ) : Framed (but_clk ev k b) := by
  unfold but_clk send_event
  split_ifs
  · exact Framed.report _ _ Framed.nil
  · exact Framed.nil

theorem abs_clk_framed (ev : input_event) (k b : ℕ) (d : ℤ) : Framed (abs_clk ev k b d) := by
  unfold abs_clk send_event
  split_ifs
  · exact Framed.report _ _ Framed.nil
  · exact Framed.report _ _ Framed.nil
  · exact Framed.nil

theorem abs_dec_framed (btn : ℕ) (m a b v : ℚ) : Framed (abs_dec btn m a b v).2 :=
  Framed.report _ _ Framed.nil

theorem keyboard_rules_framed (ev : input_event) : Framed (keyboard_rules ev) :=
  ((((((((((((((((((((but_clk_framed ev _ _).append (but_clk_framed ev _ _)).append
    (but_clk_framed ev _ _)).append (but_clk_framed ev _ _)).append (but_clk_framed ev _
    _)).append (but_clk_framed ev _ _)).append (but_clk_framed ev _ _)).append
    (but_clk_framed ev _ _)).append (but_clk_framed ev _ _)).append (but_clk_framed ev _
    _)).append (but_clk_framed ev _ _)).append (but_clk_framed ev _ _)).append
    (but_clk_framed ev _ _)).append (but_clk_framed ev _ _)).append (but_clk_framed ev _
    _)).append (but_clk_framed ev _ _)).append (abs_clk_framed ev _ _ _)).append
    (abs_clk_framed ev _ _ _)).append (abs_clk_framed ev _ _ _)).append (abs_clk_framed ev _
    _ _))

theorem mouse_rules_framed (ev : input_event) : Framed (mouse_rules ev) :=
  (((((but_clk_framed ev _ _).append (but_clk_framed ev _ _)).append (but_clk_framed ev _
    _)).append (but_clk_framed ev _ _)).append (but_clk_framed ev _ _))

theorem drain_keyboard_framed (ks : List input_event) : Framed (drain_keyboard ks) := by
  induction ks with
  | nil => exact Framed.nil
  | cons ev rest ih => exact (keyboard_rules_framed ev).append ih

theorem drain_mouse_framed (acc : ℚ) (ms : List input_event) :
    ∀ s : Stick, Framed (drain_mouse acc s ms).2 := by
  induction ms with
  | nil => intro s; exact Framed.nil
  | cons ev rest ih => intro s; exact (mouse_rules_framed ev).append (ih _)

theorem decay_framed (s : Stick) : Framed (decay s).2 :=
  (abs_dec_framed _ _ _ _ _).append (abs_dec_framed _ _ _ _ _)

theorem cycle_framed (acc : ℚ) (s : Stick) (ks ms : List input_event) :
    Framed (cycle acc s ks ms).2 :=
  ((drain_keyboard_framed ks).append (drain_mouse_framed acc ms s)).append (decay_framed _)

theorem main_loop_framed (acc : ℚ) (cycles : List (List input_event × List input_event)) :
    ∀ s : Stick, Framed (main_loop acc s cycles).2 := by
  induction cycles with
  | nil => intro s; exact Framed.nil
  | cons c rest ih => intro s; exact (cycle_framed acc s c.1 c.2).append (ih _)

/-- Report atomicity is not vacuous: a sequence that ends with a Button event is
not atomic. -/
theorem report_atomic_rejects_unsynced :
    ¬ report_atomic [{ type := EV_KEY, code := BTN_A, value := 1 }] := by
  intro h
  have h1 := h 0 { type := EV_KEY, code := BTN_A, value := 1 } rfl (by decide)
  simp at h1

/-! ### The rule tables -/

theorem keyboard_rules_eq_table (ev : input_event) :
    keyboard_rules ev = translateDigital ev keyboard_table := by
  simp only [keyboard_rules, keyboard_table, translateDigital, MappingRule.apply,
    List.append_assoc, List.append_nil]

theorem mouse_rules_eq_table (ev : input_event) :
    mouse_rules ev = translateDigital ev mouse_table := by
  simp only [mouse_rules, mouse_table, translateDigital, MappingRule.apply,
    List.append_assoc, List.append_nil]

theorem keyboard_table_sources : keyboard_table.map MappingRule.sourceKey = keyboard_sources :=
  rfl

theorem mouse_table_sources : mouse_table.map MappingRule.sourceKey = mouse_sources := rfl

theorem keyboard_sources_nodup : keyboard_sources.Nodup := by decide

theorem mouse_sources_nodup : mouse_sources.Nodup := by decide

theorem but_clk_of_ne (ev : input_event) (k b : ℕ) (h : ev.code ≠ k) : but_clk ev k b = [] := by
  unfold but_clk
  rw [if_neg (fun hc => h hc.1)]

theorem abs_clk_of_ne (ev : input_event) (k b : ℕ) (d : ℤ) (h : ev.code ≠ k) :
    abs_clk ev k b d = [] := by
  unfold abs_clk
  rw [if_neg h]

theorem MappingRule.apply_of_ne (ev : input_event) (r : MappingRule)
    (h : ev.code ≠ r.sourceKey) : r.apply ev = [] := by
  cases r with
  | ButtonRule k b => exact but_clk_of_ne ev k b h
  | AxisDigitalRule k a d => exact abs_clk_of_ne ev k a d h

/-- What one rule sends: nothing, or one Button or Axis event and the Sync event. -/
theorem MappingRule.apply_shape (ev : input_event) (r : MappingRule) :
    r.apply ev = [] ∨
      ∃ e : input_event, (e.type = EV_KEY ∨ e.type = EV_ABS) ∧
        r.apply ev = [e, { type := EV_SYN, code := 0, value := 0 }] := by
  cases r with
  | ButtonRule k b =>
    simp only [MappingRule.apply, but_clk, send_event]
    split_ifs
    · exact Or.inr ⟨_, Or.inl rfl, rfl⟩
    · exact Or.inl rfl
  | AxisDigitalRule k a d =>
    simp only [MappingRule.apply, abs_clk, send_event]
    split_ifs
    · exact Or.inr ⟨_, Or.inr rfl, rfl⟩
    · exact Or.inr ⟨_, Or.inr rfl, rfl⟩
    · exact Or.inl rfl

theorem translateDigital_unmatched (ev : input_event) (table : List MappingRule)
    (h : ev.code ∉ table.map MappingRule.sourceKey) : translateDigital ev table = [] := by
  induction table with
  | nil => rfl
  | cons r rest ih =>
    simp only [List.map_cons, List.mem_cons, not_or] at h
    simp only [translateDigital, MappingRule.apply_of_ne ev r h.1, ih h.2, List.append_nil]

/-- With pairwise distinct source keys, an event whose code is the source key of
a rule of the table triggers that rule and no other. -/
theorem translateDigital_matched (ev : input_event) (table : List MappingRule)
    (hnd : (table.map MappingRule.sourceKey).Nodup) (r : MappingRule) (hr : r ∈ table)
    (hk : ev.code = r.sourceKey) : translateDigital ev table = r.apply ev := by
  induction table with
  | nil => simp at hr
  | cons r0 rest ih =>
    simp only [List.map_cons, List.nodup_cons] at hnd
    rcases List.mem_cons.mp hr with h | h
    · subst h
      have hrest : ev.code ∉ rest.map MappingRule.sourceKey := by
        rw [hk]
        exact hnd.1
      simp only [translateDigital, translateDigital_unmatched ev rest hrest, List.append_nil]
    · have h0 : ev.code ≠ r0.sourceKey := by
        intro h1
        apply hnd.1
        rw [← h1, hk]
        exact List.mem_map_of_mem _ h
      simp only [translateDigital, MappingRule.apply_of_ne ev r0 h0, List.nil_append]
      exact ih hnd.2 h

theorem translateDigital_shape (ev : input_event) (table : List MappingRule)
    (hnd : (table.map MappingRule.sourceKey).Nodup) :
    translateDigital ev table = [] ∨
      ∃ e : input_event, (e.type = EV_KEY ∨ e.type = EV_ABS) ∧
        translateDigital ev table = [e, { type := EV_SYN, code := 0, value := 0 }] := by
  by_cases h : ev.code ∈ table.map MappingRule.sourceKey
  · obtain ⟨r, hr, hk⟩ := List.mem_map.mp h
    rw [translateDigital_matched ev table hnd r hr hk.symm]
    exact MappingRule.apply_shape ev r
  · exact Or.inl (translateDigital_unmatched ev table h)

theorem keyboard_rules_unmatched (ev : input_event) (h : ev.code ∉ keyboard_sources) :
    keyboard_rules ev = [] := by
  rw [keyboard_rules_eq_table]
  exact translateDigital_unmatched ev keyboard_table h

theorem mouse_rules_unmatched (ev : input_event) (h : ev.code ∉ mouse_sources) :
    mouse_rules ev = [] := by
  rw [mouse_rules_eq_table]
  exact translateDigital_unmatched ev mouse_table h

theorem keyboard_rules_matched (ev : input_event) (r : MappingRule) (hr : r ∈ keyboard_table)
    (hk : ev.code = r.sourceKey) : keyboard_rules ev = r.apply ev := by
  rw [keyboard_rules_eq_table]
  exact translateDigital_matched ev keyboard_table keyboard_sources_nodup r hr hk

theorem abs_acc_of_ne (ev : input_event) (key : ℕ) (m acc val : ℚ) (h : ev.code ≠ key) :
    abs_acc ev key m acc val = val := by
  unfold abs_acc
  rw [if_neg h]

/-- Every Button event of the two rule lists carries a registered button or
`BTN_MODE`. -/
theorem rules_button_codes (ev e : input_event)
    (he : e ∈ keyboard_rules ev ++ mouse_rules ev) (hk : e.type = EV_KEY) :
    e.code ∈ write_device_keybits ∨ e.code = BTN_MODE := by
  have hb : ∀ k b, (b ∈ write_device_keybits ∨ b = BTN_MODE) → ∀ e ∈ but_clk ev k b,
      e.type = EV_KEY → e.code ∈ write_device_keybits ∨ e.code = BTN_MODE := by
    intro k b hb
    refine but_clk_forall (fun e => e.type = EV_KEY →
      e.code ∈ write_device_keybits ∨ e.code = BTN_MODE) ev k b (fun _ _ => hb) ?_
    intro h
    have hne : EV_SYN ≠ EV_KEY := by decide
    exact absurd h hne
  have ha : ∀ k b d, ∀ e ∈ abs_clk ev k b d,
      e.type = EV_KEY → e.code ∈ write_device_keybits ∨ e.code = BTN_MODE := by
    intro k b d
    have hne : EV_ABS ≠ EV_KEY := by decide
    have hns : EV_SYN ≠ EV_KEY := by decide
    exact abs_clk_forall (fun e => e.type = EV_KEY →
      e.code ∈ write_device_keybits ∨ e.code = BTN_MODE) ev k b d
      (fun h => absurd h hne) (fun h => absurd h hne) (fun h => absurd h hns)
  simp only [keyboard_rules, mouse_rules, List.mem_append] at he
  rcases he with ((((((((((((((((((((h | h) | h) | h) | h) | h) | h) | h) | h) | h) | h) | h) |
    h) | h) | h) | h) | h) | h) | h) | h) | (((h | h) | h) | h) | h)
  all_goals first
    | exact ha _ _ _ e h hk
    | exact hb _ _ (by decide) e h hk

theorem but_clk_at (t k b : ℕ) (v : ℤ) :
    but_clk { type := t, code := k, value := v } k b
      = if v = 2 then [] else [{ type := EV_KEY, code := b, value := v },
          { type := EV_SYN, code := 0, value := 0 }] := by
  unfold but_clk send_event
  by_cases h : v = 2
  · simp [h]
  · simp [h]

theorem keyboard_rules_button (t k b : ℕ) (v : ℤ)
    (hr : MappingRule.ButtonRule k b ∈ keyboard_table) :
    keyboard_rules { type := t, code := k, value := v }
      = if v = 2 then [] else [{ type := EV_KEY, code := b, value := v },
          { type := EV_SYN, code := 0, value := 0 }] := by
  rw [keyboard_rules_matched _ (.ButtonRule k b) hr rfl]
  exact but_clk_at t k b v

theorem but_clk_shape (ev : input_event) (k b : ℕ) :
    but_clk ev k b = [] ∨
      ∃ e : input_event, e.type = EV_KEY ∧
        but_clk ev k b = [e, { type := EV_SYN, code := 0, value := 0 }] := by
  unfold but_clk send_event
  split_ifs
  · exact Or.inr ⟨_, rfl, rfl⟩
  · exact Or.inl rfl

theorem mouse_rules_shape (ev : input_event) :
    mouse_rules ev = [] ∨
      ∃ e : input_event, e.type = EV_KEY ∧
        mouse_rules ev = [e, { type := EV_SYN, code := 0, value := 0 }] := by
  rw [mouse_rules_eq_table]
  by_cases h : ev.code ∈ mouse_table.map MappingRule.sourceKey
  · obtain ⟨r, hr, hk⟩ := List.mem_map.mp h
    rw [translateDigital_matched ev mouse_table mouse_sources_nodup r hr hk.symm]
    simp only [mouse_table, List.mem_cons, List.mem_singleton, List.mem_nil_iff,
      or_false] at hr
    rcases hr with rfl | rfl | rfl | rfl | rfl <;> exact but_clk_shape ev _ _
  · exact Or.inl (translateDigital_unmatched ev mouse_table h)

/-! ### The two loops as folds -/

theorem drain_keyboard_eq_flatMap (ks : List input_event) :
    drain_keyboard ks = ks.flatMap keyboard_rules := by
  induction ks with
  | nil => rfl
  | cons ev rest ih => simp only [drain_keyboard, List.flatMap_cons, ih]

theorem drain_mouse_eq_fold (acc : ℚ) (ms : List input_event) :
    ∀ s : Stick,
      drain_mouse acc s ms = (ms.foldl (mouse_acc_step acc) s, ms.flatMap mouse_rules) := by
  induction ms with
  | nil => intro s; rfl
  | cons ev rest ih =>
    intro s
    simp only [drain_mouse, ih, List.foldl_cons, List.flatMap_cons]

/-- The output and the final stick of one cycle from a bounded stick. -/
theorem cycle_from_bounded (acc : ℚ) (s : Stick) (ks ms : List input_event)
    (hs : stick_bounded s) :
    (cycle acc s ks ms).2
        = ks.flatMap keyboard_rules ++ ms.flatMap mouse_rules
          ++ [{ type := EV_ABS, code := ABS_RX,
                value := c_round (abs_dec ABS_RX MAX_ABS DEC_A DEC_B
                  (ms.foldl (mouse_acc_step acc) s).mouse_x).1 },
              { type := EV_SYN, code := 0, value := 0 },
              { type := EV_ABS, code := ABS_RY,
                value := c_round (abs_dec ABS_RY MAX_ABS DEC_A DEC_B
                  (ms.foldl (mouse_acc_step acc) s).mouse_y).1 },
              { type := EV_SYN, code := 0, value := 0 }] ∧
      (cycle acc s ks ms).1
        = { mouse_x := (abs_dec ABS_RX MAX_ABS DEC_A DEC_B
              (ms.foldl (mouse_acc_step acc) s).mouse_x).1,
            mouse_y := (abs_dec ABS_RY MAX_ABS DEC_A DEC_B
              (ms.foldl (mouse_acc_step acc) s).mouse_y).1 } := by
  have hb : stick_bounded (ms.foldl (mouse_acc_step acc) s) := by
    have h := drain_mouse_bounded acc ms s hs
    rw [drain_mouse_eq_fold] at h
    exact h
  obtain ⟨hx, _⟩ := abs_dec_emits ABS_RX _ hb.1
  obtain ⟨hy, _⟩ := abs_dec_emits ABS_RY _ hb.2
  simp only [cycle, decay, drain_keyboard_eq_flatMap, drain_mouse_eq_fold, hx, hy,
    List.cons_append, List.nil_append, and_self]

theorem main_loop_snoc (acc : ℚ) (before : List (List input_event × List input_event)) :
    ∀ (s : Stick) (ks ms : List input_event),
      (main_loop acc s (before ++ [(ks, ms)])).2
        = (main_loop acc s before).2 ++ (cycle acc (main_loop acc s before).1 ks ms).2 := by
  induction before with
  | nil => intro s ks ms; simp [main_loop]
  | cons c rest ih =>
    intro s ks ms
    have h := ih (cycle acc s c.1 c.2).1 ks ms
    show (main_loop acc s (c :: (rest ++ [(ks, ms)]))).2 = _
    simp only [main_loop, h, List.append_assoc]

/-! ### The loop with the outcome of every `write` -/

theorem send_event_w_attempted (ok : ℕ → Bool) (g : Gamepad) (t c : ℕ) (v : ℤ) :
    (send_event_w ok g t c v).attempted = g.attempted ++ send_event t c v := by
  unfold send_event_w send_event
  split_ifs <;> rfl

theorem but_clk_w_attempted (ok : ℕ → Bool) (g : Gamepad) (ev : input_event) (k b : ℕ) :
    (but_clk_w ok g ev k b).attempted = g.attempted ++ but_clk ev k b := by
  unfold but_clk_w but_clk
  split_ifs
  · rw [send_event_w_attempted, send_event_w_attempted, List.append_assoc]
  · rw [List.append_nil]

theorem abs_clk_w_attempted (ok : ℕ → Bool) (g : Gamepad) (ev : input_event) (k b : ℕ)
    (d : ℤ) : (abs_clk_w ok g ev k b d).attempted = g.attempted ++ abs_clk ev k b d := by
  unfold abs_clk_w abs_clk
  split_ifs
  · rw [send_event_w_attempted, send_event_w_attempted, List.append_assoc]
  · rw [send_event_w_attempted, send_event_w_attempted, List.append_assoc]
  · rw [List.append_nil]

theorem abs_dec_w_eq (ok : ℕ → Bool) (g : Gamepad) (btn : ℕ) (m a b v : ℚ) :
    (abs_dec_w ok g btn m a b v).1 = (abs_dec btn m a b v).1 ∧
      (abs_dec_w ok g btn m a b v).2.attempted = g.attempted ++ (abs_dec btn m a b v).2 := by
  unfold abs_dec_w abs_dec
  refine ⟨rfl, ?_⟩
  simp only [send_event_w_attempted, List.append_assoc]

theorem keyboard_rules_w_attempted (ok : ℕ → Bool) (g : Gamepad) (ev : input_event) :
    (keyboard_rules_w ok g ev).attempted = g.attempted ++ keyboard_rules ev := by
  simp only [keyboard_rules_w, keyboard_rules, but_clk_w_attempted, abs_clk_w_attempted,
    List.append_assoc]

theorem mouse_event_w_eq (ok : ℕ → Bool) (acc : ℚ) (s : Stick) (g : Gamepad)
    (ev : input_event) :
    (mouse_event_w ok acc s g ev).1 = mouse_acc_step acc s ev ∧
      (mouse_event_w ok acc s g ev).2.attempted = g.attempted ++ mouse_rules ev := by
  refine ⟨rfl, ?_⟩
  simp only [mouse_event_w, mouse_rules, but_clk_w_attempted, List.append_assoc]

theorem drain_keyboard_w_attempted (ok : ℕ → Bool) (ks : List input_event) :
    ∀ g : Gamepad, (drain_keyboard_w ok g ks).attempted = g.attempted ++ drain_keyboard ks := by
  induction ks with
  | nil => intro g; simp [drain_keyboard_w, drain_keyboard]
  | cons ev rest ih =>
    intro g
    simp only [drain_keyboard_w, drain_keyboard, ih, keyboard_rules_w_attempted,
      List.append_assoc]

theorem drain_mouse_w_eq (ok : ℕ → Bool) (acc : ℚ) (ms : List input_event) :
    ∀ (s : Stick) (g : Gamepad),
      (drain_mouse_w ok acc s g ms).1 = (drain_mouse acc s ms).1 ∧
        (drain_mouse_w ok acc s g ms).2.attempted
          = g.attempted ++ (drain_mouse acc s ms).2 := by
  induction ms with
  | nil => intro s g; simp [drain_mouse_w, drain_mouse]
  | cons ev rest ih =>
    intro s g
    obtain ⟨h1, h2⟩ := mouse_event_w_eq ok acc s g ev
    obtain ⟨i1, i2⟩ := ih (mouse_event_w ok acc s g ev).1 (mouse_event_w ok acc s g ev).2
    simp only [drain_mouse_w, drain_mouse]
    rw [i1, i2, h1, h2, List.append_assoc]
    exact ⟨rfl, rfl⟩

theorem decay_w_eq (ok : ℕ → Bool) (s : Stick) (g : Gamepad) :
    (decay_w ok s g).1 = (decay s).1 ∧
      (decay_w ok s g).2.attempted = g.attempted ++ (decay s).2 := by
  obtain ⟨x1, x2⟩ := abs_dec_w_eq ok g ABS_RX MAX_ABS DEC_A DEC_B s.mouse_x
  obtain ⟨y1, y2⟩ := abs_dec_w_eq ok (abs_dec_w ok g ABS_RX MAX_ABS DEC_A DEC_B s.mouse_x).2
    ABS_RY MAX_ABS DEC_A DEC_B s.mouse_y
  simp only [decay_w, decay]
  rw [x1, y1, y2, x2, List.append_assoc]
  exact ⟨rfl, rfl⟩

theorem cycle_w_eq (ok : ℕ → Bool) (acc : ℚ) (s : Stick) (g : Gamepad)
    (ks ms : List input_event) :
    (cycle_w ok acc s g ks ms).1 = (cycle acc s ks ms).1 ∧
      (cycle_w ok acc s g ks ms).2.attempted = g.attempted ++ (cycle acc s ks ms).2 := by
  obtain ⟨m1, m2⟩ := drain_mouse_w_eq ok acc ms s (drain_keyboard_w ok g ks)
  obtain ⟨d1, d2⟩ := decay_w_eq ok (drain_mouse_w ok acc s (drain_keyboard_w ok g ks) ms).1
    (drain_mouse_w ok acc s (drain_keyboard_w ok g ks) ms).2
  simp only [cycle_w, cycle]
  rw [d1, d2, m1, m2, drain_keyboard_w_attempted]
  simp only [List.append_assoc, and_self]

theorem main_loop_w_eq (ok : ℕ → Bool) (acc : ℚ)
    (cycles : List (List input_event × List input_event)) :
    ∀ (s : Stick) (g : Gamepad),
      (main_loop_w ok acc s g cycles).1 = (main_loop acc s cycles).1 ∧
        (main_loop_w ok acc s g cycles).2.attempted
          = g.attempted ++ (main_loop acc s cycles).2 := by
  induction cycles with
  | nil => intro s g; simp [main_loop_w, main_loop]
  | cons c rest ih =>
    intro s g
    obtain ⟨c1, c2⟩ := cycle_w_eq ok acc s g c.1 c.2
    obtain ⟨i1, i2⟩ := ih (cycle_w ok acc s g c.1 c.2).1 (cycle_w ok acc s g c.1 c.2).2
    simp only [main_loop_w, main_loop]
    rw [i1, i2, c1, c2, List.append_assoc]
    exact ⟨rfl, rfl⟩

theorem send_event_w_balanced (ok : ℕ → Bool) (g : Gamepad) (t c : ℕ) (v : ℤ)
    (h : g.balanced) : (send_event_w ok g t c v).balanced := by
  unfold Gamepad.balanced at h ⊢
  unfold send_event_w
  split_ifs
  · simp only [List.length_append, List.length_singleton]
    omega
  · simp only [List.length_append, List.length_singleton]
    omega

theorem but_clk_w_balanced (ok : ℕ → Bool) (g : Gamepad) (ev : input_event) (k b : ℕ)
    (h : g.balanced) : (but_clk_w ok g ev k b).balanced := by
  unfold but_clk_w
  split_ifs
  · exact send_event_w_balanced ok _ _ _ _ (send_event_w_balanced ok g _ _ _ h)
  · exact h

theorem abs_clk_w_balanced (ok : ℕ → Bool) (g : Gamepad) (ev : input_event) (k b : ℕ)
    (d : ℤ) (h : g.balanced) : (abs_clk_w ok g ev k b d).balanced := by
  unfold abs_clk_w
  split_ifs
  · exact send_event_w_balanced ok _ _ _ _ (send_event_w_balanced ok g _ _ _ h)
  · exact send_event_w_balanced ok _ _ _ _ (send_event_w_balanced ok g _ _ _ h)
  · exact h

theorem abs_dec_w_balanced (ok : ℕ → Bool) (g : Gamepad) (btn : ℕ) (m a b v : ℚ)
    (h : g.balanced) : (abs_dec_w ok g btn m a b v).2.balanced :=
  send_event_w_balanced ok _ _ _ _ (send_event_w_balanced ok g _ _ _ h)

theorem keyboard_rules_w_balanced (ok : ℕ → Bool) (g : Gamepad) (ev : input_event)
    (h : g.balanced) : (keyboard_rules_w ok g ev).balanced := by
  have hb := fun (g : Gamepad) (k b : ℕ) (h : g.balanced) => but_clk_w_balanced ok g ev k b h
  have ha := fun (g : Gamepad) (k b : ℕ) (d : ℤ) (h : g.balanced) =>
    abs_clk_w_balanced ok g ev k b d h
  exact ha _ _ _ _ (ha _ _ _ _ (ha _ _ _ _ (ha _ _ _ _ (hb _ _ _ (hb _ _ _ (hb _ _ _ (hb _ _ _
    (hb _ _ _ (hb _ _ _ (hb _ _ _ (hb _ _ _ (hb _ _ _ (hb _ _ _ (hb _ _ _ (hb _ _ _ (hb _ _ _
    (hb _ _ _ (hb _ _ _ (hb _ _ _ h)))))))))))))))))))

theorem mouse_event_w_balanced (ok : ℕ → Bool) (acc : ℚ) (s : Stick) (g : Gamepad)
    (ev : input_event) (h : g.balanced) : (mouse_event_w ok acc s g ev).2.balanced := by
  have hb := fun (g : Gamepad) (k b : ℕ) (h : g.balanced) => but_clk_w_balanced ok g ev k b h
  exact hb _ _ _ (hb _ _ _ (hb _ _ _ (hb _ _ _ (hb _ _ _ h))))

theorem drain_keyboard_w_balanced (ok : ℕ → Bool) (ks : List input_event) :
    ∀ g : Gamepad, g.balanced → (drain_keyboard_w ok g ks).balanced := by
  induction ks with
  | nil => intro g h; exact h
  | cons ev rest ih => intro g h; exact ih _ (keyboard_rules_w_balanced ok g ev h)

theorem drain_mouse_w_balanced (ok : ℕ → Bool) (acc : ℚ) (ms : List input_event) :
    ∀ (s : Stick) (g : Gamepad), g.balanced → (drain_mouse_w ok acc s g ms).2.balanced := by
  induction ms with
  | nil => intro s g h; exact h
  | cons ev rest ih => intro s g h; exact ih _ _ (mouse_event_w_balanced ok acc s g ev h)

theorem cycle_w_balanced (ok : ℕ → Bool) (acc : ℚ) (s : Stick) (g : Gamepad)
    (ks ms : List input_event) (h : g.balanced) : (cycle_w ok acc s g ks ms).2.balanced :=
  abs_dec_w_balanced ok _ _ _ _ _ _ (abs_dec_w_balanced ok _ _ _ _ _ _
    (drain_mouse_w_balanced ok acc ms s _ (drain_keyboard_w_balanced ok ks g h)))

theorem main_loop_w_balanced (ok : ℕ → Bool) (acc : ℚ)
    (cycles : List (List input_event × List input_event)) :
    ∀ (s : Stick) (g : Gamepad), g.balanced → (main_loop_w ok acc s g cycles).2.balanced := by
  induction cycles with
  | nil => intro s g h; exact h
  | cons c rest ih => intro s g h; exact ih _ _ (cycle_w_balanced ok acc s g c.1 c.2 h)

/-- The write model at work: when every `write` fails, the press of `KEY_X` in
one cycle hands six events to `write`, none is accepted and six lines are
printed; the stick is not affected. -/
theorem all_writes_fail_example :
    main_loop_w (fun _ => false) 1 stick0 gamepad0
        [([{ type := EV_KEY, code := KEY_X, value := 1 }], [])]
      = (stick0,
          { attempted := [{ type := EV_KEY, code := BTN_X, value := 1 },
              { type := EV_SYN, code := 0, value := 0 },
              { type := EV_ABS, code := ABS_RX, value := 0 },
              { type := EV_SYN, code := 0, value := 0 },
              { type := EV_ABS, code := ABS_RY, value := 0 },
              { type := EV_SYN, code := 0, value := 0 }],
            written := [],
            failures := 6 }) := by
  decide!

/-! ### The decay at rest -/

theorem c_round_zero : c_round 0 = 0 := by decide!

theorem decay_iter_zero (btn : ℕ) (m a b : ℚ) (n : ℕ) : decay_iter btn m a b n 0 = 0 := by
  induction n with
  | zero => rfl
  | succ n ih =>
    have h : (abs_dec btn m a b 0).1 = 0 := by
      rw [abs_dec_fst, zero_mul]
    simp only [decay_iter, h, ih]

/-! ### Rounding to the doubles -/

theorem pow2_eq (e : ℤ) : pow2 e = (2 : ℚ) ^ e := by
  unfold pow2
  split_ifs with h
  · obtain ⟨n, rfl⟩ := Int.eq_ofNat_of_zero_le h
    simp
  · have h1 : 0 ≤ -e := by omega
    obtain ⟨n, hn⟩ := Int.eq_ofNat_of_zero_le h1
    have he : e = -(n : ℤ) := by omega
    subst he
    simp

theorem two_zpow_pos (e : ℤ) : (0 : ℚ) < 2 ^ e := zpow_pos (by norm_num) e

theorem two_zpow_le {m n : ℤ} (h : m ≤ n) : (2 : ℚ) ^ m ≤ 2 ^ n :=
  zpow_le_zpow_right₀ (by norm_num) h

theorem two_zpow_lt_iff {m n : ℤ} : (2 : ℚ) ^ m < 2 ^ n ↔ m < n :=
  zpow_lt_zpow_iff_right₀ (by norm_num)

theorem log2_aux_spec (fuel : ℕ) :
    ∀ n : ℕ, n ≤ fuel → n ≠ 0 →
      2 ^ log2_aux fuel n ≤ n ∧ n < 2 ^ (log2_aux fuel n + 1) := by
  induction fuel with
  | zero => intro n h hn; omega
  | succ fuel ih =>
    intro n h hn
    unfold log2_aux
    split_ifs with h2
    · simp only [pow_zero, zero_add, pow_one]
      omega
    · have h3 : n / 2 ≤ fuel := by omega
      have h4 : n / 2 ≠ 0 := by omega
      obtain ⟨i1, i2⟩ := ih (n / 2) h3 h4
      rw [pow_succ, pow_succ]
      rw [pow_succ] at i2
      constructor
      · omega
      · omega

theorem nat_log2_spec (n : ℕ) (hn : n ≠ 0) :
    2 ^ nat_log2 n ≤ n ∧ n < 2 ^ (nat_log2 n + 1) :=
  log2_aux_spec n n le_rfl hn

/-- The binary exponent brackets a positive rational. -/
theorem ilog2_spec (x : ℚ) (hx : 0 < x) :
    (2 : ℚ) ^ ilog2 x ≤ x ∧ x < (2 : ℚ) ^ (ilog2 x + 1) := by
  have hnum : 0 < x.num := Rat.num_pos.mpr hx
  have hden : x.den ≠ 0 := x.den_nz
  have hna : x.num.natAbs ≠ 0 := by omega
  obtain ⟨a1, a2⟩ := nat_log2_spec x.num.natAbs hna
  obtain ⟨b1, b2⟩ := nat_log2_spec x.den hden
  have hN : ((x.num.natAbs : ℕ) : ℚ) = (x.num : ℚ) := by
    rw [← Int.cast_natCast, Int.natAbs_of_nonneg hnum.le]
  have hx' : x = (x.num.natAbs : ℚ) / (x.den : ℚ) := by
    rw [hN]
    exact (Rat.num_div_den x).symm
  have hdpos : (0 : ℚ) < (x.den : ℚ) := by exact_mod_cast Nat.pos_of_ne_zero hden
  have A1 : (2 : ℚ) ^ (nat_log2 x.num.natAbs : ℤ) ≤ (x.num.natAbs : ℚ) := by
    rw [zpow_natCast]; exact_mod_cast a1
  have A2 : (x.num.natAbs : ℚ) < (2 : ℚ) ^ ((nat_log2 x.num.natAbs : ℤ) + 1) := by
    have : (x.num.natAbs : ℚ) < (2 : ℚ) ^ (nat_log2 x.num.natAbs + 1) := by exact_mod_cast a2
    rw [zpow_add_one₀ (by norm_num), zpow_natCast]
    rw [pow_succ] at this
    exact this
  have B1 : (2 : ℚ) ^ (nat_log2 x.den : ℤ) ≤ (x.den : ℚ) := by
    rw [zpow_natCast]; exact_mod_cast b1
  have B2 : (x.den : ℚ) < (2 : ℚ) ^ ((nat_log2 x.den : ℤ) + 1) := by
    have : (x.den : ℚ) < (2 : ℚ) ^ (nat_log2 x.den + 1) := by exact_mod_cast b2
    rw [zpow_add_one₀ (by norm_num), zpow_natCast]
    rw [pow_succ] at this
    exact this
  set a : ℤ := (nat_log2 x.num.natAbs : ℤ) with ha
  set b : ℤ := (nat_log2 x.den : ℤ) with hb
  -- x < 2 ^ (a - b + 1) and 2 ^ (a - b - 1) < x
  have U : x < (2 : ℚ) ^ (a - b + 1) := by
    have e1 : (2 : ℚ) ^ (a - b + 1) = (2 : ℚ) ^ (a + 1) / (2 : ℚ) ^ b := by
      rw [← zpow_sub₀ (by norm_num)]; congr 1; ring
    rw [e1, hx', div_lt_div_iff₀ hdpos (two_zpow_pos b)]
    calc (x.num.natAbs : ℚ) * 2 ^ b < 2 ^ (a + 1) * 2 ^ b :=
          mul_lt_mul_of_pos_right A2 (two_zpow_pos b)
      _ ≤ 2 ^ (a + 1) * (x.den : ℚ) := mul_le_mul_of_nonneg_left B1 (two_zpow_pos _).le
  have L : (2 : ℚ) ^ (a - b - 1) < x := by
    have e1 : (2 : ℚ) ^ (a - b - 1) = (2 : ℚ) ^ a / (2 : ℚ) ^ (b + 1) := by
      rw [← zpow_sub₀ (by norm_num)]; congr 1; ring
    rw [e1, hx', div_lt_div_iff₀ (two_zpow_pos _) hdpos]
    have hNpos : (0 : ℚ) < (x.num.natAbs : ℚ) := by rw [hN]; exact_mod_cast hnum
    calc (2 : ℚ) ^ a * (x.den : ℚ) ≤ (x.num.natAbs : ℚ) * (x.den : ℚ) :=
          mul_le_mul_of_nonneg_right A1 hdpos.le
      _ < (x.num.natAbs : ℚ) * 2 ^ (b + 1) := mul_lt_mul_of_pos_left B2 hNpos
  have hdef : ilog2 x = if pow2 (a - b) ≤ x then a - b else a - b - 1 := rfl
  rw [hdef, pow2_eq]
  split_ifs with h
  · exact ⟨h, U⟩
  · refine ⟨L.le, ?_⟩
    have : a - b - 1 + 1 = a - b := by ring
    rw [this]
    exact not_le.mp h

theorem ilog2_unique (x : ℚ) (hx : 0 < x) (e : ℤ) (h1 : (2 : ℚ) ^ e ≤ x)
    (h2 : x < (2 : ℚ) ^ (e + 1)) : ilog2 x = e := by
  obtain ⟨s1, s2⟩ := ilog2_spec x hx
  have u1 : e < ilog2 x + 1 := two_zpow_lt_iff.mp (lt_of_le_of_lt h1 s2)
  have u2 : ilog2 x < e + 1 := two_zpow_lt_iff.mp (lt_of_le_of_lt s1 h2)
  omega

theorem ilog2_mono (x y : ℚ) (hx : 0 < x) (hxy : x ≤ y) : ilog2 x ≤ ilog2 y := by
  obtain ⟨s1, _⟩ := ilog2_spec x hx
  obtain ⟨_, t2⟩ := ilog2_spec y (lt_of_lt_of_le hx hxy)
  have u : ilog2 x < ilog2 y + 1 := two_zpow_lt_iff.mp (lt_of_le_of_lt (le_trans s1 hxy) t2)
  omega

/-! Rounding to the nearest integer. -/

theorem rne_bounds (t : ℚ) : ⌊t⌋ ≤ rne t ∧ rne t ≤ ⌊t⌋ + 1 := by
  unfold rne
  split_ifs <;> constructor <;> omega

theorem rne_intCast (n : ℤ) : rne (n : ℚ) = n := by
  unfold rne
  rw [Int.floor_intCast]
  simp

theorem rne_mono {t s : ℚ} (h : t ≤ s) : rne t ≤ rne s := by
  have hf : ⌊t⌋ ≤ ⌊s⌋ := Int.floor_mono h
  rcases lt_or_eq_of_le hf with hlt | heq
  · have h1 := (rne_bounds t).2
    have h2 := (rne_bounds s).1
    omega
  · unfold rne
    rw [heq]
    have hr : t - (⌊s⌋ : ℚ) ≤ s - (⌊s⌋ : ℚ) := by linarith
    split_ifs <;> first | omega | (exfalso; linarith)

theorem le_rne {n : ℤ} {t : ℚ} (h : (n : ℚ) ≤ t) : n ≤ rne t := by
  have := rne_mono h
  rwa [rne_intCast] at this

theorem rne_le {n : ℤ} {t : ℚ} (h : t ≤ (n : ℚ)) : rne t ≤ n := by
  have := rne_mono h
  rwa [rne_intCast] at this

theorem one_le_rne {t : ℚ} (h : 1 / 2 < t) : 1 ≤ rne t := by
  have h0 : (0 : ℤ) ≤ ⌊t⌋ := Int.floor_nonneg.mpr (by linarith)
  rcases lt_or_eq_of_le h0 with hpos | hz
  · have := (rne_bounds t).1
    omega
  · unfold rne
    rw [← hz]
    simp only [Int.cast_zero, sub_zero]
    rw [if_neg (not_lt.mpr h.le), if_pos h]
    norm_num

theorem quantum_eq (x : ℚ) : quantum x = (2 : ℚ) ^ (max (ilog2 x) (-1022) - 52) := by
  unfold quantum
  rw [pow2_eq]

theorem quantum_pos (x : ℚ) : 0 < quantum x := by
  rw [quantum_eq]
  exact two_zpow_pos _

theorem two_zpow_53 : ((2 ^ 53 : ℤ) : ℚ) = (2 : ℚ) ^ (53 : ℤ) := by norm_num

theorem two_zpow_52 : ((2 ^ 52 : ℤ) : ℚ) = (2 : ℚ) ^ (52 : ℤ) := by norm_num

theorem two_zpow_split (E : ℤ) (k : ℤ) : (2 : ℚ) ^ k * (2 : ℚ) ^ (E - 52) = (2 : ℚ) ^ (E + (k - 52)) := by
  rw [← zpow_add₀ (by norm_num : (2 : ℚ) ≠ 0)]
  congr 1
  ring

theorem fl_pos_of_ne (x : ℚ) (hx : x ≠ 0) :
    fl_pos x = (rne (x / quantum x) : ℚ) * quantum x := by
  unfold fl_pos
  rw [if_neg hx]

theorem fl_pos_zero : fl_pos 0 = 0 := by
  unfold fl_pos
  rw [if_pos rfl]

theorem lt_pow_expo (x : ℚ) (hx : 0 < x) : x < (2 : ℚ) ^ (max (ilog2 x) (-1022) + 1) :=
  lt_of_lt_of_le (ilog2_spec x hx).2 (two_zpow_le (by omega))

theorem div_quantum_lt (x : ℚ) (hx : 0 < x) : x / quantum x < ((2 ^ 53 : ℤ) : ℚ) := by
  rw [div_lt_iff₀ (quantum_pos x), two_zpow_53, quantum_eq, two_zpow_split]
  have h := lt_pow_expo x hx
  have e : max (ilog2 x) (-1022) + ((53 : ℤ) - 52) = max (ilog2 x) (-1022) + 1 := by ring
  rw [e]
  exact h

theorem le_div_quantum (x : ℚ) (hx : 0 < x) (hn : -1022 ≤ ilog2 x) :
    ((2 ^ 52 : ℤ) : ℚ) ≤ x / quantum x := by
  rw [le_div_iff₀ (quantum_pos x), two_zpow_52, quantum_eq, two_zpow_split]
  have e : max (ilog2 x) (-1022) + ((52 : ℤ) - 52) = ilog2 x := by
    rw [max_eq_left hn]; ring
  rw [e]
  exact (ilog2_spec x hx).1

theorem fl_pos_nonneg (x : ℚ) (hx : 0 ≤ x) : 0 ≤ fl_pos x := by
  by_cases h0 : x = 0
  · rw [h0, fl_pos_zero]
  · rw [fl_pos_of_ne x h0]
    have h1 : ((0 : ℤ) : ℚ) ≤ x / quantum x := by
      rw [Int.cast_zero]
      exact div_nonneg hx (quantum_pos x).le
    have h2 : (0 : ℤ) ≤ rne (x / quantum x) := le_rne h1
    exact mul_nonneg (by exact_mod_cast h2) (quantum_pos x).le

/-- A rounded positive rational does not pass the next power of two. -/
theorem fl_pos_le_pow (x : ℚ) (hx : 0 < x) :
    fl_pos x ≤ (2 : ℚ) ^ (max (ilog2 x) (-1022) + 1) := by
  rw [fl_pos_of_ne x hx.ne']
  have h1 : rne (x / quantum x) ≤ (2 ^ 53 : ℤ) := rne_le (div_quantum_lt x hx).le
  have h2 : (rne (x / quantum x) : ℚ) ≤ ((2 ^ 53 : ℤ) : ℚ) := by exact_mod_cast h1
  calc (rne (x / quantum x) : ℚ) * quantum x
      ≤ ((2 ^ 53 : ℤ) : ℚ) * quantum x := mul_le_mul_of_nonneg_right h2 (quantum_pos x).le
    _ = (2 : ℚ) ^ (max (ilog2 x) (-1022) + 1) := by
        rw [two_zpow_53, quantum_eq, two_zpow_split]
        congr 1

/-- A rounded rational of the normal range does not fall below its power of two. -/
theorem pow_le_fl_pos (x : ℚ) (hx : 0 < x) (hn : -1022 ≤ ilog2 x) :
    (2 : ℚ) ^ ilog2 x ≤ fl_pos x := by
  rw [fl_pos_of_ne x hx.ne']
  have h1 : (2 ^ 52 : ℤ) ≤ rne (x / quantum x) := le_rne (le_div_quantum x hx hn)
  have h2 : ((2 ^ 52 : ℤ) : ℚ) ≤ (rne (x / quantum x) : ℚ) := by exact_mod_cast h1
  calc (2 : ℚ) ^ ilog2 x = ((2 ^ 52 : ℤ) : ℚ) * quantum x := by
        rw [two_zpow_52, quantum_eq, two_zpow_split, max_eq_left hn]
        congr 1
        ring
    _ ≤ (rne (x / quantum x) : ℚ) * quantum x :=
        mul_le_mul_of_nonneg_right h2 (quantum_pos x).le

theorem fl_pos_mono (x y : ℚ) (hx : 0 ≤ x) (hxy : x ≤ y) : fl_pos x ≤ fl_pos y := by
  rcases eq_or_lt_of_le hx with h0 | hpos
  · rw [← h0, fl_pos_zero]
    exact fl_pos_nonneg y (le_trans hx hxy)
  · have hy : 0 < y := lt_of_lt_of_le hpos hxy
    have hlog := ilog2_mono x y hpos hxy
    rcases eq_or_lt_of_le (max_le_max hlog (le_refl (-1022 : ℤ))) with heq | hlt
    · have hq : quantum x = quantum y := by rw [quantum_eq, quantum_eq, heq]
      rw [fl_pos_of_ne x hpos.ne', fl_pos_of_ne y hy.ne', hq]
      have h1 : x / quantum y ≤ y / quantum y :=
        div_le_div_of_nonneg_right hxy (quantum_pos y).le
      have h2 : (rne (x / quantum y) : ℚ) ≤ (rne (y / quantum y) : ℚ) := by
        exact_mod_cast rne_mono h1
      exact mul_le_mul_of_nonneg_right h2 (quantum_pos y).le
    · have hn : -1022 ≤ ilog2 y := by
        by_contra hc
        have : max (ilog2 y) (-1022) = -1022 := max_eq_right (by omega)
        have h3 : (-1022 : ℤ) ≤ max (ilog2 x) (-1022) := le_max_right _ _
        omega
      have hE : max (ilog2 y) (-1022) = ilog2 y := max_eq_left hn
      calc fl_pos x ≤ (2 : ℚ) ^ (max (ilog2 x) (-1022) + 1) := fl_pos_le_pow x hpos
        _ ≤ (2 : ℚ) ^ ilog2 y := two_zpow_le (by omega)
        _ ≤ fl_pos y := pow_le_fl_pos y hy hn

/-- The points of the grid of the doubles are fixed by the rounding. -/
theorem fl_pos_grid (E : ℤ) (n : ℤ) (hE : -1022 ≤ E) (hn0 : 0 < n) (hn : n ≤ 2 ^ 53)
    (hnorm : 2 ^ 52 ≤ n ∨ E = -1022) :
    fl_pos ((n : ℚ) * (2 : ℚ) ^ (E - 52)) = (n : ℚ) * (2 : ℚ) ^ (E - 52) := by
  have hq : (0 : ℚ) < (2 : ℚ) ^ (E - 52) := two_zpow_pos _
  have hnq : (0 : ℚ) < (n : ℚ) := by exact_mod_cast hn0
  have hy : (0 : ℚ) < (n : ℚ) * (2 : ℚ) ^ (E - 52) := mul_pos hnq hq
  -- it suffices to know the quantum of the point, up to a factor two at the top
  have key : ∀ E' : ℤ, max (ilog2 ((n : ℚ) * (2 : ℚ) ^ (E - 52))) (-1022) = E' →
      (∃ m : ℤ, (n : ℚ) * (2 : ℚ) ^ (E - 52) = (m : ℚ) * (2 : ℚ) ^ (E' - 52)) →
      fl_pos ((n : ℚ) * (2 : ℚ) ^ (E - 52)) = (n : ℚ) * (2 : ℚ) ^ (E - 52) := by
    intro E' hE' hm
    obtain ⟨m, hm⟩ := hm
    rw [fl_pos_of_ne _ hy.ne', quantum_eq, hE']
    have hq' : (0 : ℚ) < (2 : ℚ) ^ (E' - 52) := two_zpow_pos _
    have : (n : ℚ) * (2 : ℚ) ^ (E - 52) / (2 : ℚ) ^ (E' - 52) = (m : ℚ) := by
      rw [hm]
      field_simp
    rw [this, rne_intCast, ← hm]
  rcases eq_or_lt_of_le hn with htop | hlt
  · -- n = 2 ^ 53: the point is 2 ^ (E + 1)
    have hval : (n : ℚ) * (2 : ℚ) ^ (E - 52) = (2 : ℚ) ^ (E + 1) := by
      rw [htop, two_zpow_53, two_zpow_split]
      congr 1
    have hlog : ilog2 ((n : ℚ) * (2 : ℚ) ^ (E - 52)) = E + 1 := by
      apply ilog2_unique _ hy
      · rw [hval]
      · rw [hval]
        exact two_zpow_lt_iff.mpr (by omega)
    refine key (E + 1) (by rw [hlog]; exact max_eq_left (by omega)) ⟨2 ^ 52, ?_⟩
    rw [hval, two_zpow_52, two_zpow_split]
    congr 1
    ring
  · rcases hnorm with hnorm | hsub
    · have hlog : ilog2 ((n : ℚ) * (2 : ℚ) ^ (E - 52)) = E := by
        apply ilog2_unique _ hy
        · have h1 : ((2 ^ 52 : ℤ) : ℚ) ≤ (n : ℚ) := by exact_mod_cast hnorm
          calc (2 : ℚ) ^ E = ((2 ^ 52 : ℤ) : ℚ) * (2 : ℚ) ^ (E - 52) := by
                rw [two_zpow_52, two_zpow_split]; congr 1; ring
            _ ≤ (n : ℚ) * (2 : ℚ) ^ (E - 52) := mul_le_mul_of_nonneg_right h1 hq.le
        · have h1 : (n : ℚ) < ((2 ^ 53 : ℤ) : ℚ) := by exact_mod_cast hlt
          calc (n : ℚ) * (2 : ℚ) ^ (E - 52) < ((2 ^ 53 : ℤ) : ℚ) * (2 : ℚ) ^ (E - 52) :=
                mul_lt_mul_of_pos_right h1 hq
            _ = (2 : ℚ) ^ (E + 1) := by rw [two_zpow_53, two_zpow_split]; congr 1
      exact key E (by rw [hlog]; exact max_eq_left hE) ⟨n, rfl⟩
    · by_cases h52 : 2 ^ 52 ≤ n
      · -- same as the normal case
        have hlog : ilog2 ((n : ℚ) * (2 : ℚ) ^ (E - 52)) = E := by
          apply ilog2_unique _ hy
          · have h1 : ((2 ^ 52 : ℤ) : ℚ) ≤ (n : ℚ) := by exact_mod_cast h52
            calc (2 : ℚ) ^ E = ((2 ^ 52 : ℤ) : ℚ) * (2 : ℚ) ^ (E - 52) := by
                  rw [two_zpow_52, two_zpow_split]; congr 1; ring
              _ ≤ (n : ℚ) * (2 : ℚ) ^ (E - 52) := mul_le_mul_of_nonneg_right h1 hq.le
          · have h1 : (n : ℚ) < ((2 ^ 53 : ℤ) : ℚ) := by exact_mod_cast hlt
            calc (n : ℚ) * (2 : ℚ) ^ (E - 52) < ((2 ^ 53 : ℤ) : ℚ) * (2 : ℚ) ^ (E - 52) :=
                  mul_lt_mul_of_pos_right h1 hq
              _ = (2 : ℚ) ^ (E + 1) := by rw [two_zpow_53, two_zpow_split]; congr 1
        exact key E (by rw [hlog]; exact max_eq_left hE) ⟨n, rfl⟩
      · have hlt52 : n < 2 ^ 52 := not_le.mp h52
        have hlog : ilog2 ((n : ℚ) * (2 : ℚ) ^ (E - 52)) < E := by
          have h1 : (n : ℚ) < ((2 ^ 52 : ℤ) : ℚ) := by exact_mod_cast hlt52
          have h2 : (n : ℚ) * (2 : ℚ) ^ (E - 52) < (2 : ℚ) ^ E := by
            calc (n : ℚ) * (2 : ℚ) ^ (E - 52) < ((2 ^ 52 : ℤ) : ℚ) * (2 : ℚ) ^ (E - 52) :=
                  mul_lt_mul_of_pos_right h1 hq
              _ = (2 : ℚ) ^ E := by rw [two_zpow_52, two_zpow_split]; congr 1; ring
          exact two_zpow_lt_iff.mp (lt_of_le_of_lt (ilog2_spec _ hy).1 h2)
        refine key E ?_ ⟨n, rfl⟩
        rw [hsub] at hlog ⊢
        exact max_eq_right hlog.le

theorem fl_pos_idem (x : ℚ) (hx : 0 ≤ x) : fl_pos (fl_pos x) = fl_pos x := by
  rcases eq_or_lt_of_le hx with h0 | hpos
  · rw [← h0, fl_pos_zero, fl_pos_zero]
  · have hr0 : (0 : ℤ) ≤ rne (x / quantum x) := by
      apply le_rne
      rw [Int.cast_zero]
      exact div_nonneg hx (quantum_pos x).le
    have hr1 : rne (x / quantum x) ≤ 2 ^ 53 := rne_le (div_quantum_lt x hpos).le
    rw [fl_pos_of_ne x hpos.ne']
    rcases eq_or_lt_of_le hr0 with hz | hrpos
    · rw [← hz]
      simp only [Int.cast_zero, zero_mul]
      exact fl_pos_zero
    · have hnorm : 2 ^ 52 ≤ rne (x / quantum x) ∨ max (ilog2 x) (-1022) = -1022 := by
        by_cases hn : -1022 ≤ ilog2 x
        · exact Or.inl (le_rne (le_div_quantum x hpos hn))
        · exact Or.inr (max_eq_right (by omega))
      have hg := fl_pos_grid (max (ilog2 x) (-1022)) (rne (x / quantum x))
        (le_max_right _ _) hrpos hr1 hnorm
      rw [← quantum_eq] at hg
      exact hg

/-- A rational above half the smallest positive double rounds to a positive
double. -/
theorem min_le_fl_pos (x : ℚ) (hx : (2 : ℚ) ^ (-1075 : ℤ) < x) :
    (2 : ℚ) ^ (-1074 : ℤ) ≤ fl_pos x := by
  have hpos : 0 < x := lt_trans (two_zpow_pos _) hx
  have hqge : (2 : ℚ) ^ (-1074 : ℤ) ≤ quantum x := by
    rw [quantum_eq]
    exact two_zpow_le (by have := le_max_right (ilog2 x) (-1022); omega)
  have hhalf : 1 / 2 < x / quantum x := by
    by_cases hn : -1022 ≤ ilog2 x
    · have h := le_div_quantum x hpos hn
      have : (1 : ℚ) / 2 < ((2 ^ 52 : ℤ) : ℚ) := by norm_num
      linarith
    · have hq : quantum x = (2 : ℚ) ^ (-1074 : ℤ) := by
        rw [quantum_eq, max_eq_right (by omega)]
        norm_num
      rw [hq, lt_div_iff₀ (two_zpow_pos _)]
      have e : (1 : ℚ) / 2 * (2 : ℚ) ^ (-1074 : ℤ) = (2 : ℚ) ^ (-1075 : ℤ) := by
        have : (2 : ℚ) ^ (-1074 : ℤ) = (2 : ℚ) ^ (-1075 : ℤ) * 2 := by
          rw [← zpow_add_one₀ (by norm_num : (2 : ℚ) ≠ 0)]
          norm_num
        rw [this]
        ring
      rw [e]
      exact hx
  have h1 : (1 : ℤ) ≤ rne (x / quantum x) := one_le_rne hhalf
  have h2 : (1 : ℚ) ≤ (rne (x / quantum x) : ℚ) := by exact_mod_cast h1
  rw [fl_pos_of_ne x hpos.ne']
  calc (2 : ℚ) ^ (-1074 : ℤ) ≤ quantum x := hqge
    _ = 1 * quantum x := (one_mul _).symm
    _ ≤ (rne (x / quantum x) : ℚ) * quantum x :=
        mul_le_mul_of_nonneg_right h2 (quantum_pos x).le

/-- A positive double is at least the smallest positive double. -/
theorem min_le_of_fl_pos_fixed (d : ℚ) (hd : 0 < d) (hfix : fl_pos d = d) :
    (2 : ℚ) ^ (-1074 : ℤ) ≤ d := by
  have hqge : (2 : ℚ) ^ (-1074 : ℤ) ≤ quantum d := by
    rw [quantum_eq]
    exact two_zpow_le (by have := le_max_right (ilog2 d) (-1022); omega)
  rw [fl_pos_of_ne d hd.ne'] at hfix
  have hrpos : (0 : ℚ) < (rne (d / quantum d) : ℚ) := by
    by_contra hc
    have hc' : (rne (d / quantum d) : ℚ) ≤ 0 := not_lt.mp hc
    have : (rne (d / quantum d) : ℚ) * quantum d ≤ 0 :=
      mul_nonpos_of_nonpos_of_nonneg hc' (quantum_pos d).le
    linarith
  have h1 : (1 : ℤ) ≤ rne (d / quantum d) := by
    have : (0 : ℤ) < rne (d / quantum d) := by exact_mod_cast hrpos
    omega
  have h2 : (1 : ℚ) ≤ (rne (d / quantum d) : ℚ) := by exact_mod_cast h1
  calc (2 : ℚ) ^ (-1074 : ℤ) ≤ quantum d := hqge
    _ = 1 * quantum d := (one_mul _).symm
    _ ≤ (rne (d / quantum d) : ℚ) * quantum d :=
        mul_le_mul_of_nonneg_right h2 (quantum_pos d).le
    _ = d := hfix

theorem fl_of_nonneg (x : ℚ) (hx : 0 ≤ x) : fl x = fl_pos x := by
  unfold fl
  rw [if_pos hx]

theorem fl_of_neg (x : ℚ) (hx : x < 0) : fl x = -fl_pos (-x) := by
  unfold fl
  rw [if_neg (not_le.mpr hx)]

theorem fl_zero : fl 0 = 0 := by
  rw [fl_of_nonneg 0 le_rfl, fl_pos_zero]

theorem fl_neg (x : ℚ) : fl (-x) = -fl x := by
  rcases lt_trichotomy x 0 with h | h | h
  · rw [fl_of_nonneg (-x) (by linarith), fl_of_neg x h, neg_neg]
  · rw [h, neg_zero, fl_zero, neg_zero]
  · rw [fl_of_neg (-x) (by linarith), fl_of_nonneg x h.le, neg_neg]

theorem fl_nonneg (x : ℚ) (hx : 0 ≤ x) : 0 ≤ fl x := by
  rw [fl_of_nonneg x hx]
  exact fl_pos_nonneg x hx

theorem fl_nonpos (x : ℚ) (hx : x ≤ 0) : fl x ≤ 0 := by
  have h := fl_nonneg (-x) (by linarith)
  rw [fl_neg] at h
  linarith

/-- Rounding to the doubles is monotone. -/
theorem fl_mono (x y : ℚ) (hxy : x ≤ y) : fl x ≤ fl y := by
  rcases le_or_lt 0 x with hx | hx
  · rw [fl_of_nonneg x hx, fl_of_nonneg y (le_trans hx hxy)]
    exact fl_pos_mono x y hx hxy
  · rcases le_or_lt 0 y with hy | hy
    · exact le_trans (fl_nonpos x hx.le) (fl_nonneg y hy)
    · rw [fl_of_neg x hx, fl_of_neg y hy]
      have := fl_pos_mono (-y) (-x) (by linarith) (by linarith)
      linarith

/-- Rounding to the doubles fixes the doubles. -/
theorem fl_idem (x : ℚ) : fl (fl x) = fl x := by
  rcases le_or_lt 0 x with hx | hx
  · rw [fl_of_nonneg x hx, fl_of_nonneg _ (fl_pos_nonneg x hx)]
    exact fl_pos_idem x hx
  · have h1 : 0 ≤ -x := by linarith
    rw [fl_of_neg x hx, fl_neg, fl_of_nonneg _ (fl_pos_nonneg _ h1), fl_pos_idem _ h1]

theorem fl_abs (x : ℚ) : fl |x| = |fl x| := by
  rcases le_or_lt 0 x with hx | hx
  · rw [abs_of_nonneg hx, abs_of_nonneg (fl_nonneg x hx)]
  · rw [abs_of_neg hx, abs_of_nonpos (fl_nonpos x hx.le), fl_neg]

theorem abs_fl_le (x d : ℚ) (hx : |x| ≤ d) (hd : fl d = d) : |fl x| ≤ d := by
  rw [← fl_abs, ← hd]
  exact fl_mono _ _ hx

theorem isDouble_fl (x d : ℚ) (hx : |x| ≤ d) (hd : IsDouble d) : IsDouble (fl x) :=
  ⟨fl_idem x, le_trans (abs_fl_le x d hx hd.1) (le_trans (le_abs_self d) hd.2)⟩

theorem isDouble_abs (v : ℚ) (hv : IsDouble v) : IsDouble |v| := by
  refine ⟨?_, ?_⟩
  · rw [fl_abs, hv.1]
  · rw [abs_abs]
    exact hv.2

theorem round_f64_of_le (x d : ℚ) (hx : |x| ≤ d) (hd : IsDouble d) :
    round_f64 x = .fin (fl x) := by
  unfold round_f64
  rw [if_pos (isDouble_fl x d hx hd).2]

/-- A nonzero double has a magnitude of at least `2 ^ (-1074)`. -/
theorem min_le_abs_of_isDouble (v : ℚ) (hv : IsDouble v) (h0 : v ≠ 0) :
    (2 : ℚ) ^ (-1074 : ℤ) ≤ |v| := by
  have ha := isDouble_abs v hv
  have hpos : 0 < |v| := abs_pos.mpr h0
  have hfix : fl_pos |v| = |v| := by
    rw [← fl_of_nonneg _ hpos.le]
    exact ha.1
  exact min_le_of_fl_pos_fixed |v| hpos hfix

theorem fl_pos_of_gt (x : ℚ) (hx : (2 : ℚ) ^ (-1075 : ℤ) < x) : 0 < fl x := by
  have hpos : 0 < x := lt_trans (two_zpow_pos _) hx
  rw [fl_of_nonneg x hpos.le]
  exact lt_of_lt_of_le (two_zpow_pos _) (min_le_fl_pos x hx)

theorem isDouble_zero : IsDouble 0 := by decide!

theorem isDouble_one : IsDouble 1 := by decide!

theorem isDouble_max : IsDouble MAX_DOUBLE := by decide!

/-- The rounding at work: the double nearest to `0.1`; ties going to the even
neighbour in the subnormal range and above `2 ^ 53`; the overflow to infinity
from halfway between `MAX_DOUBLE` and `2 ^ 1024`. -/
theorem fl_examples :
    fl (1 / 10) = 3602879701896397 / 36028797018963968 ∧
    fl (pow2 (-1075)) = 0 ∧
    fl (3 * pow2 (-1075)) = 2 * pow2 (-1074) ∧
    fl (pow2 53 + 1) = pow2 53 ∧
    fl (pow2 53 + 3) = pow2 53 + 4 ∧
    fl (-(pow2 53 + 3)) = -(pow2 53 + 4) ∧
    round_f64 MAX_DOUBLE = .fin MAX_DOUBLE ∧
    round_f64 (MAX_DOUBLE + pow2 969) = .fin MAX_DOUBLE ∧
    round_f64 (MAX_DOUBLE + pow2 970) = .inf false ∧
    round_f64 (-(pow2 1024)) = .inf true := by
  decide!

/-! ### The decay in double arithmetic -/

theorem round_f64_mono (x y : ℚ) (hxy : x ≤ y) : F64.le (round_f64 x) (round_f64 y) := by
  have hm := fl_mono x y hxy
  unfold round_f64
  split_ifs with hx hy hy
  · exact hm
  · -- the larger one overflows: it is positive
    show decide (y < 0) = false
    rw [decide_eq_false_iff_not]
    intro hy0
    apply hy
    have h1 : fl y ≤ 0 := fl_nonpos y hy0.le
    have h2 : fl x ≤ 0 := le_trans hm h1
    rw [abs_of_nonpos h1]
    rw [abs_of_nonpos h2] at hx
    linarith
  · -- the smaller one overflows: it is negative
    show decide (x < 0) = true
    rw [decide_eq_true_iff]
    by_contra hx0
    apply hx
    have h1 : 0 ≤ fl x := fl_nonneg x (not_lt.mp hx0)
    have h2 : 0 ≤ fl y := le_trans h1 hm
    rw [abs_of_nonneg h1]
    rw [abs_of_nonneg h2] at hy
    linarith
  · show decide (x < 0) = true ∨ decide (y < 0) = false
    by_cases hx0 : x < 0
    · exact Or.inl (decide_eq_true hx0)
    · right
      rw [decide_eq_false_iff_not]
      intro hy0
      exact hx0 (lt_of_le_of_lt hxy hy0)

theorem quot_bounds (m v : ℚ) (hm0 : 0 < m) (hv : |v| ≤ m) :
    0 ≤ fl (|v| / m) ∧ fl (|v| / m) ≤ 1 := by
  have h0 : 0 ≤ |v| / m := div_nonneg (abs_nonneg v) hm0.le
  have h1 : |v| / m ≤ 1 := (div_le_one hm0).mpr hv
  refine ⟨fl_nonneg _ h0, ?_⟩
  have := fl_mono _ _ h1
  rwa [isDouble_one.1] at this

theorem term_bounds (m b v : ℚ) (hb : IsDouble b) (hm0 : 0 < m) (hb0 : 0 ≤ b)
    (hv : |v| ≤ m) :
    0 ≤ fl (|v| / m) * b ∧ fl (|v| / m) * b ≤ b ∧
      0 ≤ fl (fl (|v| / m) * b) ∧ fl (fl (|v| / m) * b) ≤ b := by
  obtain ⟨q0, q1⟩ := quot_bounds m v hm0 hv
  have h0 : 0 ≤ fl (|v| / m) * b := mul_nonneg q0 hb0
  have h1 : fl (|v| / m) * b ≤ b := by
    have := mul_le_mul_of_nonneg_right q1 hb0
    linarith
  refine ⟨h0, h1, fl_nonneg _ h0, ?_⟩
  have := fl_mono _ _ h1
  rwa [hb.1] at this

theorem term_mono (m b u v : ℚ) (hm0 : 0 < m) (hb0 : 0 ≤ b) (huv : |u| ≤ |v|) :
    fl (fl (|u| / m) * b) ≤ fl (fl (|v| / m) * b) := by
  apply fl_mono
  apply mul_le_mul_of_nonneg_right _ hb0
  apply fl_mono
  exact div_le_div_of_nonneg_right huv hm0.le

/-- The factor that `abs_dec_f64` computes at finite arguments. -/
theorem decay_factor_f64_fin (m a b v : ℚ) (hb : IsDouble b) (hm0 : 0 < m) (hb0 : 0 ≤ b)
    (hv : |v| ≤ m) :
    decay_factor_f64 (.fin m) (.fin a) (.fin b) (.fin v)
      = round_f64 (a - fl (fl (|v| / m) * b)) := by
  have h1 : |(|v| / m)| ≤ 1 := by
    rw [abs_of_nonneg (div_nonneg (abs_nonneg v) hm0.le)]
    exact (div_le_one hm0).mpr hv
  obtain ⟨t0, t1, _, _⟩ := term_bounds m b v hb hm0 hb0 hv
  have h2 : |fl (|v| / m) * b| ≤ b := by
    rw [abs_of_nonneg t0]
    exact t1
  have e1 : F64.div (F64.abs (.fin v)) (.fin m) = .fin (fl (|v| / m)) := by
    show (if m = 0 then (if |v| = 0 then F64.nan else F64.inf (decide (|v| < 0)))
      else round_f64 (|v| / m)) = _
    rw [if_neg hm0.ne', round_f64_of_le _ 1 h1 isDouble_one]
  have e2 : F64.mul (.fin (fl (|v| / m))) (.fin b) = .fin (fl (fl (|v| / m) * b)) := by
    show round_f64 (fl (|v| / m) * b) = _
    rw [round_f64_of_le _ b h2 hb]
  unfold decay_factor_f64
  rw [e1, e2]
  rfl

/-- One call of `abs_dec_f64` on a double `v` with a finite factor `f` in
`[0, 1]`: the new state is the double nearest to `v * f`; it keeps the side of
zero and does not grow in magnitude. -/
theorem abs_dec_f64_step (btn : ℕ) (m a b v f : ℚ) (hvd : IsDouble v)
    (hf : decay_factor_f64 (.fin m) (.fin a) (.fin b) (.fin v) = .fin f)
    (hf0 : 0 ≤ f) (hf1 : f ≤ 1) :
    (abs_dec_f64 btn (.fin m) (.fin a) (.fin b) (.fin v)).1 = .fin (fl (v * f)) ∧
      IsDouble (fl (v * f)) ∧ |fl (v * f)| ≤ |v| ∧
      (0 ≤ v → 0 ≤ fl (v * f)) ∧ (v ≤ 0 → fl (v * f) ≤ 0) := by
  have habs : |v * f| ≤ |v| := by
    rw [abs_mul, abs_of_nonneg hf0]
    exact mul_le_of_le_one_right (abs_nonneg v) hf1
  have hda := isDouble_abs v hvd
  refine ⟨?_, isDouble_fl _ _ habs hda, abs_fl_le _ _ habs hda.1, ?_, ?_⟩
  · show F64.mul (.fin v) (decay_factor_f64 (.fin m) (.fin a) (.fin b) (.fin v)) = _
    rw [hf]
    show round_f64 (v * f) = _
    exact round_f64_of_le _ _ habs hda
  · intro h
    exact fl_nonneg _ (mul_nonneg h hf0)
  · intro h
    exact fl_nonpos _ (mul_nonpos_of_nonpos_of_nonneg h hf0)

theorem decay_iter_f64_succ (btn : ℕ) (m a b : F64) (n : ℕ) :
    ∀ v : F64, decay_iter_f64 btn m a b (n + 1) v
      = (abs_dec_f64 btn m a b (decay_iter_f64 btn m a b n v)).1 := by
  induction n with
  | zero => intro v; rfl
  | succ n ih =>
    intro v
    exact ih (abs_dec_f64 btn m a b v).1

theorem MAX_ABS_f64_eq : MAX_ABS_f64 = .fin 32767 := by decide!

theorem DEC_A_f64_eq : DEC_A_f64 = .fin (8998192055486251 / 9007199254740992) := by decide!

theorem DEC_B_f64_eq : DEC_B_f64 = .fin (5764607523034235 / 576460752303423488) := by
  decide!

theorem isDouble_dec_a : IsDouble (8998192055486251 / 9007199254740992) := by decide!

theorem isDouble_dec_b : IsDouble (5764607523034235 / 576460752303423488) := by decide!

theorem fl_dec_a_sub_dec_b :
    fl (8998192055486251 / 9007199254740992 - 5764607523034235 / 576460752303423488)
      = 8908120062938841 / 9007199254740992 := by
  decide!

/-- The double nearest to the product of a double and a factor above one half
has the sign of the double. -/
theorem fl_mul_sign (v f : ℚ) (hvd : IsDouble v) (hf : 1 / 2 < f) :
    SignType.sign (fl (v * f)) = SignType.sign v := by
  have key : ∀ w : ℚ, IsDouble w → 0 < w → 0 < fl (w * f) := by
    intro w hwd hw
    apply fl_pos_of_gt
    have hmin := min_le_abs_of_isDouble w hwd hw.ne'
    rw [abs_of_pos hw] at hmin
    have e : (2 : ℚ) ^ (-1075 : ℤ) = (2 : ℚ) ^ (-1074 : ℤ) * (1 / 2) := by
      have : (2 : ℚ) ^ (-1074 : ℤ) = (2 : ℚ) ^ (-1075 : ℤ) * 2 := by
        rw [← zpow_add_one₀ (by norm_num : (2 : ℚ) ≠ 0)]
        norm_num
      rw [this]
      ring
    rw [e]
    calc (2 : ℚ) ^ (-1074 : ℤ) * (1 / 2) < (2 : ℚ) ^ (-1074 : ℤ) * f :=
          mul_lt_mul_of_pos_left hf (two_zpow_pos _)
      _ ≤ w * f := mul_le_mul_of_nonneg_right hmin (by linarith)
  rcases lt_trichotomy v 0 with h | h | h
  · have hnd : IsDouble (-v) := by
      refine ⟨?_, ?_⟩
      · rw [fl_neg, hvd.1]
      · rw [abs_neg]
        exact hvd.2
    have h1 := key (-v) hnd (by linarith)
    have e : -v * f = -(v * f) := by ring
    rw [e, fl_neg] at h1
    rw [sign_neg (by linarith), sign_neg h]
  · rw [h, zero_mul, fl_zero]
  · rw [sign_pos (key v hvd h), sign_pos h]

/-- The factor of `abs_dec_f64` with the constants of the program, at a state
within `[-32767, 32767]`. -/
theorem decay_factor_f64_const (v : ℚ) (hv : |v| ≤ 32767) :
    ∃ f : ℚ, decay_factor_f64 MAX_ABS_f64 DEC_A_f64 DEC_B_f64 (.fin v) = .fin f ∧
      8908120062938841 / 9007199254740992 ≤ f ∧
      f ≤ 8998192055486251 / 9007199254740992 := by
  rw [MAX_ABS_f64_eq, DEC_A_f64_eq, DEC_B_f64_eq]
  obtain ⟨_, _, t0, t1⟩ := term_bounds 32767 (5764607523034235 / 576460752303423488) v
    isDouble_dec_b (by norm_num) (by norm_num) hv
  rw [decay_factor_f64_fin 32767 _ _ v isDouble_dec_b (by norm_num) (by norm_num) hv]
  set t := fl (fl (|v| / 32767) * (5764607523034235 / 576460752303423488)) with ht
  have hlo : (8998192055486251 : ℚ) / 9007199254740992
      - 5764607523034235 / 576460752303423488
        ≤ 8998192055486251 / 9007199254740992 - t := by linarith
  have hhi : (8998192055486251 : ℚ) / 9007199254740992 - t
      ≤ 8998192055486251 / 9007199254740992 := by linarith
  have hxpos : (0 : ℚ) ≤ 8998192055486251 / 9007199254740992 - t := by
    refine le_trans ?_ hlo
    norm_num
  have hxabs : |(8998192055486251 : ℚ) / 9007199254740992 - t|
      ≤ 8998192055486251 / 9007199254740992 := by
    rw [abs_of_nonneg hxpos]
    exact hhi
  refine ⟨fl (8998192055486251 / 9007199254740992 - t),
    round_f64_of_le _ _ hxabs isDouble_dec_a, ?_, ?_⟩
  · have := fl_mono _ _ hlo
    rwa [fl_dec_a_sub_dec_b] at this
  · have := fl_mono _ _ hhi
    rwa [isDouble_dec_a.1] at this

/-- One call of `abs_dec_f64` with the constants of the program on a double
within `[-32767, 32767]`. -/
theorem abs_dec_f64_const_step (btn : ℕ) (v : ℚ) (hd : IsDouble v) (hv : |v| ≤ 32767) :
    ∃ f new : ℚ,
      decay_factor_f64 MAX_ABS_f64 DEC_A_f64 DEC_B_f64 (.fin v) = .fin f ∧
      8908120062938841 / 9007199254740992 ≤ f ∧
      f ≤ 8998192055486251 / 9007199254740992 ∧
      (abs_dec_f64 btn MAX_ABS_f64 DEC_A_f64 DEC_B_f64 (.fin v)).1 = .fin new ∧
      new = fl (v * f) ∧ IsDouble new ∧
      SignType.sign new = SignType.sign v ∧
      fl (8908120062938841 / 9007199254740992 * |v|) ≤ |new| ∧
      |new| ≤ fl (8998192055486251 / 9007199254740992 * |v|) ∧
      |new| ≤ |v| := by
  obtain ⟨f, hf, hlo, hhi⟩ := decay_factor_f64_const v hv
  have hf0 : 0 ≤ f := le_trans (by norm_num) hlo
  have hf1 : f ≤ 1 := le_trans hhi (by norm_num)
  have hhalf : 1 / 2 < f := lt_of_lt_of_le (by norm_num) hlo
  have hstep : (abs_dec_f64 btn MAX_ABS_f64 DEC_A_f64 DEC_B_f64 (.fin v)).1 = .fin (fl (v * f)) ∧
      IsDouble (fl (v * f)) ∧ |fl (v * f)| ≤ |v| := by
    rw [MAX_ABS_f64_eq, DEC_A_f64_eq, DEC_B_f64_eq] at hf ⊢
    obtain ⟨e, d1, l1, _, _⟩ := abs_dec_f64_step btn _ _ _ v f hd hf hf0 hf1
    exact ⟨e, d1, l1⟩
  obtain ⟨e, d1, l1⟩ := hstep
  have habs : |fl (v * f)| = fl (|v| * f) := by
    rw [← fl_abs, abs_mul, abs_of_nonneg hf0]
  refine ⟨f, fl (v * f), hf, hlo, hhi, e, rfl, d1, fl_mul_sign v f hd hhalf, ?_, ?_, l1⟩
  · rw [habs]
    apply fl_mono
    rw [mul_comm]
    exact mul_le_mul_of_nonneg_left hlo (abs_nonneg v)
  · rw [habs]
    apply fl_mono
    rw [mul_comm]
    exact mul_le_mul_of_nonneg_right hhi (abs_nonneg v)

theorem decay_iter_f64_const (btn : ℕ) (n : ℕ) :
    ∀ v : ℚ, IsDouble v → |v| ≤ 32767 →
      ∃ s : ℚ, decay_iter_f64 btn MAX_ABS_f64 DEC_A_f64 DEC_B_f64 n (.fin v) = .fin s ∧
        IsDouble s ∧ SignType.sign s = SignType.sign v ∧ |s| ≤ |v| := by
  induction n with
  | zero =>
    intro v hd _
    exact ⟨v, rfl, hd, rfl, le_rfl⟩
  | succ n ih =>
    intro v hd hv
    obtain ⟨f, new, _, _, _, e, _, d1, s1, _, _, l1⟩ := abs_dec_f64_const_step btn v hd hv
    obtain ⟨s, hs, sd, ss, sl⟩ := ih new d1 (le_trans l1 hv)
    refine ⟨s, ?_, sd, ss.trans s1, le_trans sl l1⟩
    show decay_iter_f64 btn _ _ _ n (abs_dec_f64 btn _ _ _ (.fin v)).1 = _
    rw [e]
    exact hs

/-! ## The analog motion model: one call -/

/-- C2 (as amended): with the state 32767 and the constants of the program
(`MAX_ABS = 32767`, `DEC_A = 0.999`, `DEC_B = 0.01`) one `abs_dec` call leaves
the state `32767 * 0.989 = 32406.563` and sends the axis value 32407. -/
theorem abs_dec_scenario (btn : ℕ) :
    abs_dec btn MAX_ABS DEC_A DEC_B 32767
      = (32767 * (989 / 1000), [{ type := EV_ABS, code := btn, value := 32407 },
          { type := EV_SYN, code := 0, value := 0 }]) := by
  have h1 : (32767 : ℚ) * (DEC_A - (|32767| / ((MAX_ABS : ℤ) : ℚ) * DEC_B))
      = 32767 * (989 / 1000) := by
    norm_num [MAX_ABS, DEC_A, DEC_B]
  have h2 : c_round (32767 * (989 / 1000)) = 32407 := by decide!
  have h3 : double_to_int 32407 = 32407 := by decide
  unfold abs_dec send_event
  simp only [h1, h2, h3]
  rfl

/-- C2 (counterexample): the axis value sent in the scenario is not 32398. -/
theorem abs_dec_scenario_not_32398 :
    (abs_dec ABS_RX MAX_ABS DEC_A DEC_B 32767).2
      ≠ [{ type := EV_ABS, code := ABS_RX, value := 32398 },
         { type := EV_SYN, code := 0, value := 0 }] := by
  decide!

/-- C3: on an event whose code matches the axis, `abs_acc` sets the state to
`clamp(val + delta * acc, -max, +max)`, so that for every prior state, every
integer delta, every `acc` (in particular every positive one) and every
`max ≥ 0` the new state lies in `[-max, +max]`; on an event whose code does not
match, the state is unchanged. -/
theorem abs_acc_clamps (in_ev : input_event) (key : ℕ) (max acc val : ℚ) (hmax : 0 ≤ max) :
    (in_ev.code = key →
      abs_acc in_ev key max acc val = applyImpulse_spec val in_ev.value max acc ∧
      -max ≤ abs_acc in_ev key max acc val ∧ abs_acc in_ev key max acc val ≤ max) ∧
    (in_ev.code ≠ key → abs_acc in_ev key max acc val = val) := by
  constructor
  · intro hk
    unfold abs_acc applyImpulse_spec
    rw [if_pos hk]
    exact ⟨clamp_eq _ _ hmax, clamp_bounds _ _ hmax⟩
  · intro hk
    unfold abs_acc
    rw [if_neg hk]

/-- Witness of C3: a motion of 5 on the X axis with acceleration 100 from the
state 32700, and the same event seen by the Y axis. -/
theorem abs_acc_clamps_witness :
    (0 : ℚ) ≤ 32767 ∧
      (abs_acc { type := EV_REL, code := 0, value := 5 } ABS_X 32767 100 32700
          = applyImpulse_spec 32700 5 32767 100 ∧
        -32767 ≤ abs_acc { type := EV_REL, code := 0, value := 5 } ABS_X 32767 100 32700 ∧
        abs_acc { type := EV_REL, code := 0, value := 5 } ABS_X 32767 100 32700 ≤ 32767) ∧
      abs_acc { type := EV_REL, code := 0, value := 5 } ABS_Y 32767 100 32700 = 32700 :=
  ⟨by norm_num,
    (abs_acc_clamps { type := EV_REL, code := 0, value := 5 } ABS_X 32767 100 32700
      (by norm_num)).1 rfl,
    (abs_acc_clamps { type := EV_REL, code := 0, value := 5 } ABS_Y 32767 100 32700
      (by norm_num)).2 (by decide)⟩

/-! ## The analog motion model along the loop -/

/-- C4: starting from `mouse_x = mouse_y = 0`, after any number of cycles with
any keyboard and mouse events and any acceleration factor, both stick values
have magnitude at most 32767 at every point: initially, after each `abs_acc`
call and after each `abs_dec` call. -/
theorem stick_invariant (mouse_acc : ℚ) (cycles : List (List input_event × List input_event))
    (t : Stick) (ht : t ∈ stick0 :: main_loop_trace mouse_acc stick0 cycles) :
    |t.mouse_x| ≤ 32767 ∧ |t.mouse_y| ≤ 32767 := by
  rcases List.mem_cons.mp ht with h | h
  · rw [h]
    exact stick0_bounded
  · exact main_loop_trace_bounded mouse_acc cycles stick0 stick0_bounded t h

/-- Witness of C4: one cycle with a motion of 1000 on the X axis and the
acceleration 100; the impulse saturates `mouse_x` at 32767. -/
theorem stick_invariant_witness :
    ({ mouse_x := 32767, mouse_y := 0 } : Stick)
        ∈ stick0 :: main_loop_trace 100 stick0 [([], [{ type := EV_REL, code := 0, value := 1000 }])] ∧
      (|({ mouse_x := 32767, mouse_y := 0 } : Stick).mouse_x| ≤ 32767 ∧
        |({ mouse_x := 32767, mouse_y := 0 } : Stick).mouse_y| ≤ 32767) :=
  ⟨by decide!,
    stick_invariant 100 [([], [{ type := EV_REL, code := 0, value := 1000 }])]
      { mouse_x := 32767, mouse_y := 0 } (by decide!)⟩

/-- C5: the axis value that `abs_dec` sends never leaves the registered axis
range. In the output of any number of cycles from `(0, 0)`, every Axis event
carries a value in `[-32767, 32767]`; and at every stick value `t` that the loop
reaches, an `abs_dec` call on either coordinate sends exactly the rounded new
state, of magnitude at most 32767, although `abs_dec` does not clamp. -/
theorem emitted_axis_in_range (mouse_acc : ℚ)
    (cycles : List (List input_event × List input_event)) :
    (∀ e ∈ (main_loop mouse_acc stick0 cycles).2, e.type = EV_ABS →
      -32767 ≤ e.value ∧ e.value ≤ 32767) ∧
    (∀ t ∈ stick0 :: main_loop_trace mouse_acc stick0 cycles, ∀ v ∈ [t.mouse_x, t.mouse_y],
      ∀ btn : ℕ,
        (abs_dec btn MAX_ABS DEC_A DEC_B v).2
            = [{ type := EV_ABS, code := btn,
                 value := c_round (abs_dec btn MAX_ABS DEC_A DEC_B v).1 },
               { type := EV_SYN, code := 0, value := 0 }] ∧
          -32767 ≤ c_round (abs_dec btn MAX_ABS DEC_A DEC_B v).1 ∧
          c_round (abs_dec btn MAX_ABS DEC_A DEC_B v).1 ≤ 32767) := by
  constructor
  · refine main_loop_forall (fun e => e.type = EV_ABS → -32767 ≤ e.value ∧ e.value ≤ 32767)
      ?_ ?_ ?_ mouse_acc cycles stick0 stick0_bounded
    · intro b v _ h
      have hne : EV_KEY ≠ EV_ABS := by decide
      exact absurd h hne
    · intro b d hd _
      exact abs_le.mp hd
    · intro h
      have hne : EV_SYN ≠ EV_ABS := by decide
      exact absurd h hne
  · intro t ht v hv btn
    have hb : stick_bounded t := by
      rcases List.mem_cons.mp ht with h | h
      · rw [h]
        exact stick0_bounded
      · exact main_loop_trace_bounded mouse_acc cycles stick0 stick0_bounded t h
    have hvb : |v| ≤ 32767 := by
      simp only [List.mem_cons, List.mem_singleton, List.mem_nil_iff, or_false] at hv
      rcases hv with hv | hv
      · rw [hv]; exact hb.1
      · rw [hv]; exact hb.2
    obtain ⟨h1, h2⟩ := abs_dec_emits btn v hvb
    exact ⟨h1, abs_le.mp h2⟩

/-- Witness of C5: one cycle with a motion of 1000 on the X axis and the
acceleration 100. The stick saturates at 32767 and the cycle sends the value
32407 on `ABS_RX`. -/
theorem emitted_axis_in_range_witness :
    (({ type := EV_ABS, code := ABS_RX, value := 32407 } : input_event)
        ∈ (main_loop 100 stick0 [([], [{ type := EV_REL, code := 0, value := 1000 }])]).2 ∧
      ((-32767 : ℤ) ≤ 32407 ∧ (32407 : ℤ) ≤ 32767)) ∧
    (({ mouse_x := 32767, mouse_y := 0 } : Stick)
        ∈ stick0 :: main_loop_trace 100 stick0
            [([], [{ type := EV_REL, code := 0, value := 1000 }])] ∧
      (abs_dec ABS_RX MAX_ABS DEC_A DEC_B 32767).2
        = [{ type := EV_ABS, code := ABS_RX,
             value := c_round (abs_dec ABS_RX MAX_ABS DEC_A DEC_B 32767).1 },
           { type := EV_SYN, code := 0, value := 0 }]) :=
  ⟨⟨by decide!,
    (emitted_axis_in_range 100 [([], [{ type := EV_REL, code := 0, value := 1000 }])]).1
      { type := EV_ABS, code := ABS_RX, value := 32407 } (by decide!) rfl⟩,
    by decide!,
    ((emitted_axis_in_range 100 [([], [{ type := EV_REL, code := 0, value := 1000 }])]).2
      { mouse_x := 32767, mouse_y := 0 } (by decide!) 32767 (by simp) ABS_RX).1⟩

/-! ## Decay towards the centre -/

/-- The same input in the double arithmetic of the program: all the values are
doubles, no operation rounds, and the state 1 becomes `-3/2`. -/
theorem abs_dec_f64_sign_flip :
    (IsDouble 1 ∧ IsDouble (1 / 2) ∧ IsDouble 2) ∧
    (abs_dec_f64 ABS_RX (.fin 1) (.fin (1 / 2)) (.fin 2) (.fin 1)).1 = .fin (-3 / 2) := by
  decide!

/-! ## The digital mapping -/

/-- C7 (as amended): for every input event whose code is the source key of the
rule and whose value is not 2 (repeat), `but_clk` sends exactly the Button event
of the target button with the same value, followed by the Sync event; a release
followed by a press of the same key yields Button 0, Sync, Button 1, Sync; and
the Button value sent is 0 or 1 whenever the value of the input event is one of
the key values 0, 1, 2. -/
theorem but_clk_passthrough (in_ev : input_event) (key target : ℕ)
    (hcode : in_ev.code = key) (hval : in_ev.value ≠ 2) :
    but_clk in_ev key target
        = [{ type := EV_KEY, code := target, value := in_ev.value },
           { type := EV_SYN, code := 0, value := 0 }] ∧
    (∀ t0 t1 : ℕ,
      but_clk { type := t0, code := key, value := 0 } key target
          ++ but_clk { type := t1, code := key, value := 1 } key target
        = [{ type := EV_KEY, code := target, value := 0 },
           { type := EV_SYN, code := 0, value := 0 },
           { type := EV_KEY, code := target, value := 1 },
           { type := EV_SYN, code := 0, value := 0 }]) ∧
    (in_ev.value = 0 ∨ in_ev.value = 1 ∨ in_ev.value = 2 →
      ∀ e ∈ but_clk in_ev key target, e.type = EV_KEY → e.value = 0 ∨ e.value = 1) := by
  have h : but_clk in_ev key target
      = [{ type := EV_KEY, code := target, value := in_ev.value },
         { type := EV_SYN, code := 0, value := 0 }] := by
    unfold but_clk send_event
    rw [if_pos ⟨hcode, hval⟩]
    rfl
  refine ⟨h, ?_, ?_⟩
  · intro t0 t1
    simp [but_clk, send_event]
  · intro hdom e he hty
    rw [h] at he
    simp only [List.mem_cons, List.mem_singleton, List.mem_nil_iff, or_false] at he
    rcases he with he | he
    · rw [he]
      rcases hdom with h0 | h1 | h2
      · exact Or.inl h0
      · exact Or.inr h1
      · exact absurd h2 hval
    · rw [he] at hty
      have hne : EV_SYN ≠ EV_KEY := by decide
      exact absurd hty hne

/-- Witness of C7 (as amended): the press of `KEY_Q` under the rule
`KEY_Q → BTN_DPAD_LEFT`. -/
theorem but_clk_passthrough_witness :
    (({ type := EV_KEY, code := KEY_Q, value := 1 } : input_event).code = KEY_Q ∧
      ({ type := EV_KEY, code := KEY_Q, value := 1 } : input_event).value ≠ 2) ∧
    but_clk { type := EV_KEY, code := KEY_Q, value := 1 } KEY_Q BTN_DPAD_LEFT
      = [{ type := EV_KEY, code := BTN_DPAD_LEFT, value := 1 },
         { type := EV_SYN, code := 0, value := 0 }] :=
  ⟨⟨rfl, by decide⟩,
    (but_clk_passthrough { type := EV_KEY, code := KEY_Q, value := 1 } KEY_Q BTN_DPAD_LEFT
      rfl (by decide)).1⟩

/-- C7 (counterexample): `but_clk` compares the code only. A hat-axis event of a
device, type `EV_ABS`, code 16 and value -1, has the code of `KEY_Q` and a value
that is not 2; the rule `KEY_Q → BTN_DPAD_LEFT` sends a Button event whose value
is -1, neither 0 nor 1. -/
theorem but_clk_value_not_binary :
    (({ type := EV_ABS, code := 16, value := -1 } : input_event).code = KEY_Q ∧
      ({ type := EV_ABS, code := 16, value := -1 } : input_event).value ≠ 2) ∧
    but_clk { type := EV_ABS, code := 16, value := -1 } KEY_Q BTN_DPAD_LEFT
      = [{ type := EV_KEY, code := BTN_DPAD_LEFT, value := -1 },
         { type := EV_SYN, code := 0, value := 0 }] ∧
    ¬ ∀ e ∈ but_clk { type := EV_ABS, code := 16, value := -1 } KEY_Q BTN_DPAD_LEFT,
        e.type = EV_KEY → e.value = 0 ∨ e.value = 1 := by
  decide

/-- C8: a repeat event never produces a Button event: for every input event with
value 2, whatever its code, neither the keyboard rule list nor the mouse rule
list of `main` sends an event of type `EV_KEY`. -/
theorem repeat_sends_no_button (ev : input_event) (hrep : ev.value = 2) :
    (∀ e ∈ keyboard_rules ev, e.type ≠ EV_KEY) ∧ (∀ e ∈ mouse_rules ev, e.type ≠ EV_KEY) := by
  have hA : EV_ABS ≠ EV_KEY := by decide
  have hS : EV_SYN ≠ EV_KEY := by decide
  constructor
  · exact keyboard_rules_forall (fun e => e.type ≠ EV_KEY) ev
      (fun h => absurd hrep h) (fun _ _ _ => hA) hS
  · exact mouse_rules_forall (fun e => e.type ≠ EV_KEY) ev (fun h => absurd hrep h) hS

/-- Witness of C8: the repeat of `KEY_A` sends an Axis event and the Sync event,
the repeat of `KEY_Q` and of the left mouse button send nothing. -/
theorem repeat_sends_no_button_witness :
    ({ type := EV_KEY, code := KEY_A, value := 2 } : input_event).value = 2 ∧
    ((∀ e ∈ keyboard_rules { type := EV_KEY, code := KEY_A, value := 2 }, e.type ≠ EV_KEY) ∧
      (∀ e ∈ mouse_rules { type := EV_KEY, code := KEY_A, value := 2 }, e.type ≠ EV_KEY)) ∧
    keyboard_rules { type := EV_KEY, code := KEY_A, value := 2 }
      = [{ type := EV_ABS, code := ABS_X, value := -32767 },
         { type := EV_SYN, code := 0, value := 0 }] ∧
    keyboard_rules { type := EV_KEY, code := KEY_Q, value := 2 } = [] ∧
    mouse_rules { type := EV_KEY, code := BTN_LEFT, value := 2 } = [] :=
  ⟨rfl, repeat_sends_no_button { type := EV_KEY, code := KEY_A, value := 2 } rfl,
    by decide, by decide, by decide⟩

/-- C9: for every input event whose code is the source key of the rule,
`abs_clk` sends exactly the Axis event of the target axis with the value `d`,
followed by the Sync event, where `d` is the deflection if the value of the
event is 1 (press) or 2 (repeat) and 0 otherwise. With the keyboard list of
`main`, the press of `KEY_A` sends Axis(`ABS_X`, -32767) then Sync, and its
release sends Axis(`ABS_X`, 0) then Sync. -/
theorem abs_clk_axis (in_ev : input_event) (key btn : ℕ) (deflection : ℤ)
    (hcode : in_ev.code = key) :
    (in_ev.value = 1 ∨ in_ev.value = 2 →
      abs_clk in_ev key btn deflection
        = [{ type := EV_ABS, code := btn, value := deflection },
           { type := EV_SYN, code := 0, value := 0 }]) ∧
    (in_ev.value ≠ 1 ∧ in_ev.value ≠ 2 →
      abs_clk in_ev key btn deflection
        = [{ type := EV_ABS, code := btn, value := 0 },
           { type := EV_SYN, code := 0, value := 0 }]) ∧
    keyboard_rules { type := EV_KEY, code := KEY_A, value := 1 }
      = [{ type := EV_ABS, code := ABS_X, value := -32767 },
         { type := EV_SYN, code := 0, value := 0 }] ∧
    keyboard_rules { type := EV_KEY, code := KEY_A, value := 0 }
      = [{ type := EV_ABS, code := ABS_X, value := 0 },
         { type := EV_SYN, code := 0, value := 0 }] := by
  refine ⟨?_, ?_, by decide, by decide⟩
  · intro hv
    unfold abs_clk send_event
    rw [if_pos hcode, if_pos hv]
    rfl
  · intro hv
    unfold abs_clk send_event
    rw [if_pos hcode, if_neg (not_or.mpr hv)]
    rfl

/-- Witness of C9: the rule `KEY_D → ABS_X` with deflection 32767 at a press
and at a release of `KEY_D`. -/
theorem abs_clk_axis_witness :
    ({ type := EV_KEY, code := KEY_D, value := 1 } : input_event).code = KEY_D ∧
    abs_clk { type := EV_KEY, code := KEY_D, value := 1 } KEY_D ABS_X 32767
      = [{ type := EV_ABS, code := ABS_X, value := 32767 },
         { type := EV_SYN, code := 0, value := 0 }] ∧
    abs_clk { type := EV_KEY, code := KEY_D, value := 0 } KEY_D ABS_X 32767
      = [{ type := EV_ABS, code := ABS_X, value := 0 },
         { type := EV_SYN, code := 0, value := 0 }] :=
  ⟨rfl,
    (abs_clk_axis { type := EV_KEY, code := KEY_D, value := 1 } KEY_D ABS_X 32767 rfl).1
      (Or.inl rfl),
    (abs_clk_axis { type := EV_KEY, code := KEY_D, value := 0 } KEY_D ABS_X 32767 rfl).2.1
      (by decide)⟩

/-! ## The output of the loop -/

/-- C10: report atomicity. In the whole output sequence of any number of cycles,
over any keyboard and mouse events, from any stick and with any acceleration,
every event that is not a Sync event is immediately followed by the Sync event,
so that the sequence never ends with an event that is not a Sync event. -/
theorem main_loop_report_atomic (mouse_acc : ℚ) (s : Stick)
    (cycles : List (List input_event × List input_event)) :
    report_atomic (main_loop mouse_acc s cycles).2 :=
  (main_loop_framed mouse_acc cycles s).atomic

/-! ## The rule lists and the registered buttons -/

/-- C11 (the code at the failing input): the press of `KEY_P` makes the keyboard
rule list send a Button event with the code `BTN_MODE`, and `BTN_MODE` is not
among the key capabilities that `write_device` registers, although the
specification lists it; the registered buttons are the sixteen other buttons of
the specification. -/
theorem mode_button_unregistered :
    keyboard_rules { type := EV_KEY, code := KEY_P, value := 1 }
      = [{ type := EV_KEY, code := BTN_MODE, value := 1 },
         { type := EV_SYN, code := 0, value := 0 }] ∧
    BTN_MODE ∉ write_device_keybits ∧
    BTN_MODE ∈ spec_buttons ∧
    (∀ b ∈ spec_buttons, b ∈ write_device_keybits ∨ b = BTN_MODE) ∧
    (∀ b ∈ write_device_keybits, b ∈ spec_buttons) := by
  decide

/-- C14: an unmatched event is dropped. For every input event whose code is not
a source key of the keyboard list, the keyboard loop sends nothing; for every
input event whose code is not a source button of the mouse list and is neither 0
nor 1, the mouse loop sends nothing and leaves the stick unchanged. The
functions are total: there is no error result. -/
theorem unmatched_dropped (mouse_acc : ℚ) (s : Stick) (ev : input_event) :
    (ev.code ∉ keyboard_sources → keyboard_rules ev = [] ∧ drain_keyboard [ev] = []) ∧
    (ev.code ∉ mouse_sources → ev.code ≠ ABS_X → ev.code ≠ ABS_Y →
      mouse_rules ev = [] ∧ mouse_acc_step mouse_acc s ev = s ∧
        drain_mouse mouse_acc s [ev] = (s, [])) := by
  constructor
  · intro h
    have h1 := keyboard_rules_unmatched ev h
    exact ⟨h1, by simp only [drain_keyboard, h1, List.append_nil]⟩
  · intro h hx hy
    have h1 := mouse_rules_unmatched ev h
    have h2 : mouse_acc_step mouse_acc s ev = s := by
      unfold mouse_acc_step
      rw [abs_acc_of_ne ev ABS_X _ _ _ hx, abs_acc_of_ne ev ABS_Y _ _ _ hy]
    refine ⟨h1, h2, ?_⟩
    simp only [drain_mouse, h1, h2, List.append_nil]

/-- Witness of C14: a press of `KEY_Z` (code 44) at the keyboard, and a wheel
motion (`EV_REL`, code 8) at the mouse with the stick at `(100, -200)`. -/
theorem unmatched_dropped_witness :
    (({ type := EV_KEY, code := 44, value := 1 } : input_event).code ∉ keyboard_sources ∧
      keyboard_rules { type := EV_KEY, code := 44, value := 1 } = [] ∧
      drain_keyboard [{ type := EV_KEY, code := 44, value := 1 }] = []) ∧
    ((({ type := EV_REL, code := 8, value := -1 } : input_event).code ∉ mouse_sources ∧
      ({ type := EV_REL, code := 8, value := -1 } : input_event).code ≠ ABS_X ∧
      ({ type := EV_REL, code := 8, value := -1 } : input_event).code ≠ ABS_Y) ∧
      mouse_rules { type := EV_REL, code := 8, value := -1 } = [] ∧
      mouse_acc_step 100 { mouse_x := 100, mouse_y := -200 }
          { type := EV_REL, code := 8, value := -1 }
        = { mouse_x := 100, mouse_y := -200 } ∧
      drain_mouse 100 { mouse_x := 100, mouse_y := -200 }
          [{ type := EV_REL, code := 8, value := -1 }]
        = ({ mouse_x := 100, mouse_y := -200 }, [])) :=
  ⟨⟨by decide,
      (unmatched_dropped 100 { mouse_x := 100, mouse_y := -200 }
        { type := EV_KEY, code := 44, value := 1 }).1 (by decide)⟩,
    ⟨by decide, by decide, by decide⟩,
    (unmatched_dropped 100 { mouse_x := 100, mouse_y := -200 }
      { type := EV_REL, code := 8, value := -1 }).2 (by decide) (by decide) (by decide)⟩

/-- C15: the arrow keys and the letter keys of the D-pad are interchangeable.
For every value `v`, and whatever the types of the events, the keyboard rule
list sends the same sequence for `KEY_Q` and `KEY_LEFT`, for `KEY_E` and
`KEY_RIGHT`, for `KEY_R` and `KEY_UP`, and for `KEY_F` and `KEY_DOWN`: the
Button event of the D-pad direction with the value `v`, followed by the Sync
event, when `v` is not 2, and nothing when `v` is 2. -/
theorem dpad_keys_interchangeable (t t1 : ℕ) (v : ℤ) :
    (keyboard_rules { type := t, code := KEY_Q, value := v }
        = keyboard_rules { type := t1, code := KEY_LEFT, value := v } ∧
      keyboard_rules { type := t, code := KEY_Q, value := v }
        = if v = 2 then [] else [{ type := EV_KEY, code := BTN_DPAD_LEFT, value := v },
            { type := EV_SYN, code := 0, value := 0 }]) ∧
    (keyboard_rules { type := t, code := KEY_E, value := v }
        = keyboard_rules { type := t1, code := KEY_RIGHT, value := v } ∧
      keyboard_rules { type := t, code := KEY_E, value := v }
        = if v = 2 then [] else [{ type := EV_KEY, code := BTN_DPAD_RIGHT, value := v },
            { type := EV_SYN, code := 0, value := 0 }]) ∧
    (keyboard_rules { type := t, code := KEY_R, value := v }
        = keyboard_rules { type := t1, code := KEY_UP, value := v } ∧
      keyboard_rules { type := t, code := KEY_R, value := v }
        = if v = 2 then [] else [{ type := EV_KEY, code := BTN_DPAD_UP, value := v },
            { type := EV_SYN, code := 0, value := 0 }]) ∧
    (keyboard_rules { type := t, code := KEY_F, value := v }
        = keyboard_rules { type := t1, code := KEY_DOWN, value := v } ∧
      keyboard_rules { type := t, code := KEY_F, value := v }
        = if v = 2 then [] else [{ type := EV_KEY, code := BTN_DPAD_DOWN, value := v },
            { type := EV_SYN, code := 0, value := 0 }]) := by
  have hq := keyboard_rules_button t KEY_Q BTN_DPAD_LEFT v (by decide)
  have hl := keyboard_rules_button t1 KEY_LEFT BTN_DPAD_LEFT v (by decide)
  have he := keyboard_rules_button t KEY_E BTN_DPAD_RIGHT v (by decide)
  have hr := keyboard_rules_button t1 KEY_RIGHT BTN_DPAD_RIGHT v (by decide)
  have hR := keyboard_rules_button t KEY_R BTN_DPAD_UP v (by decide)
  have hu := keyboard_rules_button t1 KEY_UP BTN_DPAD_UP v (by decide)
  have hf := keyboard_rules_button t KEY_F BTN_DPAD_DOWN v (by decide)
  have hd := keyboard_rules_button t1 KEY_DOWN BTN_DPAD_DOWN v (by decide)
  exact ⟨⟨hq.trans hl.symm, hq⟩, ⟨he.trans hr.symm, he⟩, ⟨hR.trans hu.symm, hR⟩,
    ⟨hf.trans hd.symm, hf⟩⟩

/-- C18: the source keys of the keyboard rule list are pairwise distinct, and so
are the source buttons of the mouse rule list; hence every input event matches
at most one rule of each list, and one event through the complete keyboard list
or the complete mouse list sends exactly 0 events or exactly 2: one Button or
Axis event and the Sync event. -/
theorem one_rule_per_event (ev : input_event) :
    (keyboard_sources.Nodup ∧ mouse_sources.Nodup) ∧
    (keyboard_sources.count ev.code ≤ 1 ∧ mouse_sources.count ev.code ≤ 1) ∧
    (((keyboard_rules ev).length = 0 ∨ (keyboard_rules ev).length = 2) ∧
      (keyboard_rules ev = [] ∨
        ∃ e : input_event, (e.type = EV_KEY ∨ e.type = EV_ABS) ∧
          keyboard_rules ev = [e, { type := EV_SYN, code := 0, value := 0 }])) ∧
    (((mouse_rules ev).length = 0 ∨ (mouse_rules ev).length = 2) ∧
      (mouse_rules ev = [] ∨
        ∃ e : input_event, e.type = EV_KEY ∧
          mouse_rules ev = [e, { type := EV_SYN, code := 0, value := 0 }])) := by
  have hk := translateDigital_shape ev keyboard_table keyboard_sources_nodup
  have hm := translateDigital_shape ev mouse_table mouse_sources_nodup
  rw [← keyboard_rules_eq_table] at hk
  rw [← mouse_rules_eq_table] at hm
  have hm1 := mouse_rules_shape ev
  refine ⟨⟨keyboard_sources_nodup, mouse_sources_nodup⟩,
    ⟨List.nodup_iff_count_le_one.mp keyboard_sources_nodup _,
      List.nodup_iff_count_le_one.mp mouse_sources_nodup _⟩, ⟨?_, hk⟩, ?_, ?_⟩
  · rcases hk with h | ⟨e, _, h⟩
    · exact Or.inl (by rw [h]; rfl)
    · exact Or.inr (by rw [h]; rfl)
  · rcases hm with h | ⟨e, _, h⟩
    · exact Or.inl (by rw [h]; rfl)
    · exact Or.inr (by rw [h]; rfl)
  · exact hm1

/-! ## The mouse loop and the cycle -/

/-- C12 (as amended): the impulse is selected by the code of the event alone.
For every mouse event whose code is neither 0 nor 1, whatever its type and
value, the mouse loop leaves `mouse_x` and `mouse_y` unchanged. -/
theorem impulse_by_code_only (mouse_acc : ℚ) (s : Stick) (ev : input_event)
    (hx : ev.code ≠ ABS_X) (hy : ev.code ≠ ABS_Y) :
    mouse_acc_step mouse_acc s ev = s ∧ (drain_mouse mouse_acc s [ev]).1 = s := by
  have h : mouse_acc_step mouse_acc s ev = s := by
    unfold mouse_acc_step
    rw [abs_acc_of_ne ev ABS_X _ _ _ hx, abs_acc_of_ne ev ABS_Y _ _ _ hy]
  exact ⟨h, h⟩

/-- Witness of C12 (as amended): a press of the left button (`EV_KEY`, code
0x110) with the stick at `(100, -200)` and the acceleration 50. -/
theorem impulse_by_code_only_witness :
    (({ type := EV_KEY, code := BTN_LEFT, value := 1 } : input_event).code ≠ ABS_X ∧
      ({ type := EV_KEY, code := BTN_LEFT, value := 1 } : input_event).code ≠ ABS_Y) ∧
    (mouse_acc_step 50 { mouse_x := 100, mouse_y := -200 }
          { type := EV_KEY, code := BTN_LEFT, value := 1 }
        = { mouse_x := 100, mouse_y := -200 } ∧
      (drain_mouse 50 { mouse_x := 100, mouse_y := -200 }
          [{ type := EV_KEY, code := BTN_LEFT, value := 1 }]).1
        = { mouse_x := 100, mouse_y := -200 }) :=
  ⟨⟨by decide, by decide⟩,
    impulse_by_code_only 50 { mouse_x := 100, mouse_y := -200 }
      { type := EV_KEY, code := BTN_LEFT, value := 1 } (by decide) (by decide)⟩

/-- C12 (counterexample): an event of an absolute axis, type `EV_ABS`, code 0
and value 100, is not a relative motion, and the mouse loop applies it as an
impulse: with the acceleration 1 the stick goes from `(0, 0)` to `(100, 0)`. -/
theorem impulse_from_absolute_event :
    ({ type := EV_ABS, code := 0, value := 100 } : input_event).type ≠ EV_REL ∧
    (drain_mouse 1 stick0 [{ type := EV_ABS, code := 0, value := 100 }]).1
      = { mouse_x := 100, mouse_y := 0 } ∧
    (drain_mouse 1 stick0 [{ type := EV_ABS, code := 0, value := 100 }]).1 ≠ stick0 := by
  decide!

/-- C13: cycle ordering. In every cycle of the loop, after any cycles before it,
the output is the output of the keyboard events in order, then the output of
the mouse events in order, then Axis(`ABS_RX`, rx), Sync, Axis(`ABS_RY`, ry),
Sync, where rx and ry are the rounded results of one `abs_dec` call on the stick
obtained after all the impulses of the mouse events of this cycle; the stick
after the cycle is that decayed stick. -/
theorem cycle_ordering (mouse_acc : ℚ) (before : List (List input_event × List input_event))
    (ks ms : List input_event) :
    (cycle mouse_acc (main_loop mouse_acc stick0 before).1 ks ms).2
        = ks.flatMap keyboard_rules ++ ms.flatMap mouse_rules
          ++ [{ type := EV_ABS, code := ABS_RX,
                value := c_round (abs_dec ABS_RX MAX_ABS DEC_A DEC_B
                  (ms.foldl (mouse_acc_step mouse_acc)
                    (main_loop mouse_acc stick0 before).1).mouse_x).1 },
              { type := EV_SYN, code := 0, value := 0 },
              { type := EV_ABS, code := ABS_RY,
                value := c_round (abs_dec ABS_RY MAX_ABS DEC_A DEC_B
                  (ms.foldl (mouse_acc_step mouse_acc)
                    (main_loop mouse_acc stick0 before).1).mouse_y).1 },
              { type := EV_SYN, code := 0, value := 0 }] ∧
      (cycle mouse_acc (main_loop mouse_acc stick0 before).1 ks ms).1
        = { mouse_x := (abs_dec ABS_RX MAX_ABS DEC_A DEC_B
              (ms.foldl (mouse_acc_step mouse_acc)
                (main_loop mouse_acc stick0 before).1).mouse_x).1,
            mouse_y := (abs_dec ABS_RY MAX_ABS DEC_A DEC_B
              (ms.foldl (mouse_acc_step mouse_acc)
                (main_loop mouse_acc stick0 before).1).mouse_y).1 } ∧
      (main_loop mouse_acc stick0 (before ++ [(ks, ms)])).2
        = (main_loop mouse_acc stick0 before).2
          ++ (cycle mouse_acc (main_loop mouse_acc stick0 before).1 ks ms).2 := by
  obtain ⟨h1, h2⟩ := cycle_from_bounded mouse_acc _ ks ms
    (main_loop_bounded mouse_acc before stick0 stick0_bounded)
  exact ⟨h1, h2, main_loop_snoc mouse_acc before stick0 ks ms⟩

/-! ## Failed writes -/

/-- C16: a failed `write` neither halts nor alters the translation. Whatever
writes succeed and whatever writes fail, the loop hands the same sequence of
events to `write` and ends with the same stick: they are those of the loop
without failures, so any two patterns of failures agree. Every event handed to
`write` is either accepted or reported by one printed line. -/
theorem write_failures_harmless (ok ok1 : ℕ → Bool) (mouse_acc : ℚ) (s : Stick)
    (cycles : List (List input_event × List input_event)) :
    ((main_loop_w ok mouse_acc s gamepad0 cycles).1 = (main_loop mouse_acc s cycles).1 ∧
      (main_loop_w ok mouse_acc s gamepad0 cycles).2.attempted
        = (main_loop mouse_acc s cycles).2) ∧
    ((main_loop_w ok mouse_acc s gamepad0 cycles).1
        = (main_loop_w ok1 mouse_acc s gamepad0 cycles).1 ∧
      (main_loop_w ok mouse_acc s gamepad0 cycles).2.attempted
        = (main_loop_w ok1 mouse_acc s gamepad0 cycles).2.attempted) ∧
    (main_loop_w ok mouse_acc s gamepad0 cycles).2.failures
        + (main_loop_w ok mouse_acc s gamepad0 cycles).2.written.length
      = (main_loop_w ok mouse_acc s gamepad0 cycles).2.attempted.length := by
  obtain ⟨h1, h2⟩ := main_loop_w_eq ok mouse_acc cycles s gamepad0
  obtain ⟨k1, k2⟩ := main_loop_w_eq ok1 mouse_acc cycles s gamepad0
  have hg : gamepad0.attempted = [] := rfl
  rw [hg, List.nil_append] at h2 k2
  exact ⟨⟨h1, h2⟩, ⟨h1.trans k1.symm, h2.trans k2.symm⟩,
    main_loop_w_balanced ok mouse_acc cycles s gamepad0 rfl⟩

/-! ## The decay at rest and under deflection -/

/-- C17: the rest position is a fixed point of the decay. For every `max > 0`,
`decA` and `decB`, `abs_dec` on the state 0 leaves the state exactly 0 and sends
the Axis event with the value 0 followed by the Sync event; so does any number
of calls. -/
theorem abs_dec_at_rest (btn : ℕ) (max decA decB : ℚ) (_hmax : 0 < max) :
    abs_dec btn max decA decB 0
        = (0, [{ type := EV_ABS, code := btn, value := 0 },
            { type := EV_SYN, code := 0, value := 0 }]) ∧
      ∀ n : ℕ, decay_iter btn max decA decB n 0 = 0 := by
  refine ⟨?_, decay_iter_zero btn max decA decB⟩
  have h0 : (0 : ℚ) * (decA - |(0 : ℚ)| / max * decB) = 0 := zero_mul _
  have hd : double_to_int 0 = 0 := by decide
  unfold abs_dec send_event
  simp only [h0, c_round_zero, hd]
  rfl

/-- Witness of C17: the constants of the program on the axis `ABS_RX`. -/
theorem abs_dec_at_rest_witness :
    (0 : ℚ) < 32767 ∧
      (abs_dec ABS_RX 32767 (999 / 1000) (1 / 100) 0
          = (0, [{ type := EV_ABS, code := ABS_RX, value := 0 },
              { type := EV_SYN, code := 0, value := 0 }]) ∧
        ∀ n : ℕ, decay_iter ABS_RX 32767 (999 / 1000) (1 / 100) n 0 = 0) :=
  ⟨by norm_num, abs_dec_at_rest ABS_RX 32767 (999 / 1000) (1 / 100) (by norm_num)⟩

/-- C19 (as amended): magnitude-dependent damping in the double arithmetic of
the program. For `max > 0`, a double `decB ≥ 0` and two states `u`, `v` with
`|u| ≤ |v| ≤ max`, the decay factor `decA - (|v| / max) * decB` that `abs_dec`
computes and multiplies the state by is not larger at the larger deflection. -/
theorem decay_factor_antitone (max decA decB u v : ℚ) (hBd : IsDouble decB)
    (hmax : 0 < max) (hB : 0 ≤ decB) (huv : |u| ≤ |v|) (hvm : |v| ≤ max) :
    F64.le (decay_factor_f64 (.fin max) (.fin decA) (.fin decB) (.fin v))
      (decay_factor_f64 (.fin max) (.fin decA) (.fin decB) (.fin u)) := by
  rw [decay_factor_f64_fin max decA decB v hBd hmax hB hvm,
    decay_factor_f64_fin max decA decB u hBd hmax hB (le_trans huv hvm)]
  apply round_f64_mono
  have := term_mono max decB u v hmax hB huv
  linarith

/-- Witness of C19 (as amended): the constants of the program at the states 100
and 32767, where the factors are the doubles `8997917168140685 / 2 ^ 53` and
`8908120062938841 / 2 ^ 53`. -/
theorem decay_factor_antitone_witness :
    (IsDouble (5764607523034235 / 576460752303423488) ∧ (0 : ℚ) < 32767 ∧
      (0 : ℚ) ≤ 5764607523034235 / 576460752303423488 ∧ |(100 : ℚ)| ≤ |(32767 : ℚ)| ∧
      |(32767 : ℚ)| ≤ 32767) ∧
    F64.le
      (decay_factor_f64 (.fin 32767) (.fin (8998192055486251 / 9007199254740992))
        (.fin (5764607523034235 / 576460752303423488)) (.fin 32767))
      (decay_factor_f64 (.fin 32767) (.fin (8998192055486251 / 9007199254740992))
        (.fin (5764607523034235 / 576460752303423488)) (.fin 100)) :=
  ⟨by decide!,
    decay_factor_antitone 32767 (8998192055486251 / 9007199254740992)
      (5764607523034235 / 576460752303423488) 100 32767 (by decide!) (by decide!)
      (by decide!) (by decide!) (by decide!)⟩

/-- C19 (counterexample): with the constants of the program the states
`u = 2 ^ (-80)` and `v = 2 ^ (-79)` are nonzero with `|u| < |v| ≤ 32767`, and
one `abs_dec` call multiplies both by the same double, the one nearest to 0.999:
the term with `DEC_B` is absorbed by the rounding, and the ratio of the new state
to the old one is not smaller at the larger deflection. At the states
`500 * 2 ^ (-1074)` and `501 * 2 ^ (-1074)` the new states are
`499 * 2 ^ (-1074)` and `500 * 2 ^ (-1074)`: the ratio is larger at the larger
deflection. -/
theorem damping_absorbed :
    ((0 : ℚ) < 32767 ∧ (0 : ℚ) < 5764607523034235 / 576460752303423488 ∧
      pow2 (-80) ≠ 0 ∧ pow2 (-79) ≠ 0 ∧ |pow2 (-80)| < |pow2 (-79)| ∧
      |pow2 (-79)| ≤ 32767 ∧
      500 * pow2 (-1074) ≠ 0 ∧ 501 * pow2 (-1074) ≠ 0 ∧
      |500 * pow2 (-1074)| < |501 * pow2 (-1074)| ∧ |501 * pow2 (-1074)| ≤ 32767) ∧
    ((abs_dec_f64 ABS_RX MAX_ABS_f64 DEC_A_f64 DEC_B_f64 (.fin (pow2 (-80)))).1
        = .fin (pow2 (-80) * (8998192055486251 / 9007199254740992)) ∧
      (abs_dec_f64 ABS_RX MAX_ABS_f64 DEC_A_f64 DEC_B_f64 (.fin (pow2 (-79)))).1
        = .fin (pow2 (-79) * (8998192055486251 / 9007199254740992)) ∧
      ¬ (pow2 (-79) * (8998192055486251 / 9007199254740992) / pow2 (-79)
          < pow2 (-80) * (8998192055486251 / 9007199254740992) / pow2 (-80))) ∧
    ((abs_dec_f64 ABS_RX MAX_ABS_f64 DEC_A_f64 DEC_B_f64 (.fin (500 * pow2 (-1074)))).1
        = .fin (499 * pow2 (-1074)) ∧
      (abs_dec_f64 ABS_RX MAX_ABS_f64 DEC_A_f64 DEC_B_f64 (.fin (501 * pow2 (-1074)))).1
        = .fin (500 * pow2 (-1074)) ∧
      499 * pow2 (-1074) / (500 * pow2 (-1074))
        < 500 * pow2 (-1074) / (501 * pow2 (-1074))) := by
  decide!

/-- C20 (as amended): in the double arithmetic of the program and with its
constants (`MAX_ABS = 32767`, `DEC_A` and `DEC_B` the doubles nearest to 0.999
and 0.01), for every double state `v` with `|v| ≤ 32767` one `abs_dec` call
multiplies `v` by a computed factor between the doubles
`8908120062938841 / 2 ^ 53` (about 0.989) and `8998192055486251 / 2 ^ 53` (about
0.999) and rounds the product: the new state has the sign of `v`, its magnitude
lies between the doubles nearest to these two multiples of `|v|` and is at most
`|v|`; after any number of calls without impulse the state has the sign of `v`
and a magnitude that never increases. -/
theorem decay_rate_bounds_f64 (btn : ℕ) (v : ℚ) (hd : IsDouble v) (hv : |v| ≤ 32767) :
    (∃ f new : ℚ,
      decay_factor_f64 MAX_ABS_f64 DEC_A_f64 DEC_B_f64 (.fin v) = .fin f ∧
      8908120062938841 / 9007199254740992 ≤ f ∧
      f ≤ 8998192055486251 / 9007199254740992 ∧
      (abs_dec_f64 btn MAX_ABS_f64 DEC_A_f64 DEC_B_f64 (.fin v)).1 = .fin new ∧
      new = fl (v * f) ∧
      SignType.sign new = SignType.sign v ∧
      fl (8908120062938841 / 9007199254740992 * |v|) ≤ |new| ∧
      |new| ≤ fl (8998192055486251 / 9007199254740992 * |v|) ∧
      |new| ≤ |v|) ∧
    (∀ n : ℕ, ∃ s s' : ℚ,
      decay_iter_f64 btn MAX_ABS_f64 DEC_A_f64 DEC_B_f64 n (.fin v) = .fin s ∧
      decay_iter_f64 btn MAX_ABS_f64 DEC_A_f64 DEC_B_f64 (n + 1) (.fin v) = .fin s' ∧
      SignType.sign s = SignType.sign v ∧ |s'| ≤ |s| ∧ |s| ≤ |v|) := by
  constructor
  · obtain ⟨f, new, h1, h2, h3, h4, h5, _, h7, h8, h9, h10⟩ :=
      abs_dec_f64_const_step btn v hd hv
    exact ⟨f, new, h1, h2, h3, h4, h5, h7, h8, h9, h10⟩
  · intro n
    obtain ⟨s, hs, sd, ss, sl⟩ := decay_iter_f64_const btn n v hd hv
    obtain ⟨f, new, _, _, _, e, _, _, _, _, _, l1⟩ :=
      abs_dec_f64_const_step btn s sd (le_trans sl hv)
    refine ⟨s, new, hs, ?_, ss, l1, sl⟩
    rw [decay_iter_f64_succ, hs]
    exact e

/-- Witness of C20 (as amended): the state -1000 on the axis `ABS_RY`. -/
theorem decay_rate_bounds_f64_witness :
    (IsDouble (-1000) ∧ |(-1000 : ℚ)| ≤ 32767) ∧
    ((∃ f new : ℚ,
      decay_factor_f64 MAX_ABS_f64 DEC_A_f64 DEC_B_f64 (.fin (-1000)) = .fin f ∧
      8908120062938841 / 9007199254740992 ≤ f ∧
      f ≤ 8998192055486251 / 9007199254740992 ∧
      (abs_dec_f64 ABS_RY MAX_ABS_f64 DEC_A_f64 DEC_B_f64 (.fin (-1000))).1 = .fin new ∧
      new = fl (-1000 * f) ∧
      SignType.sign new = SignType.sign (-1000 : ℚ) ∧
      fl (8908120062938841 / 9007199254740992 * |(-1000 : ℚ)|) ≤ |new| ∧
      |new| ≤ fl (8998192055486251 / 9007199254740992 * |(-1000 : ℚ)|) ∧
      |new| ≤ |(-1000 : ℚ)|) ∧
    (∀ n : ℕ, ∃ s s' : ℚ,
      decay_iter_f64 ABS_RY MAX_ABS_f64 DEC_A_f64 DEC_B_f64 n (.fin (-1000)) = .fin s ∧
      decay_iter_f64 ABS_RY MAX_ABS_f64 DEC_A_f64 DEC_B_f64 (n + 1) (.fin (-1000)) = .fin s' ∧
      SignType.sign s = SignType.sign (-1000 : ℚ) ∧ |s'| ≤ |s| ∧ |s| ≤ |(-1000 : ℚ)|)) :=
  ⟨by decide!, decay_rate_bounds_f64 ABS_RY (-1000) (by decide!) (by decide!)⟩

/-- C20 (counterexample): the state `499 * 2 ^ (-1074)` is a double within
`[-32767, 32767]`, and one `abs_dec` call with the constants of the program
returns it unchanged: the product with the factor rounds back to the state. The
new magnitude is not at most `0.999 * |v|`, and after two calls the state is
still there, above `0.999 ^ 2 * |v|`. At the state 32767 the computed factor is
the double `8908120062938841 / 2 ^ 53`, below 0.989, and the new magnitude is
below `0.989 * |v|`. -/
theorem decay_stalls :
    (IsDouble (499 * pow2 (-1074)) ∧ |499 * pow2 (-1074)| ≤ 32767) ∧
    ((abs_dec_f64 ABS_RX MAX_ABS_f64 DEC_A_f64 DEC_B_f64 (.fin (499 * pow2 (-1074)))).1
        = .fin (499 * pow2 (-1074)) ∧
      ¬ (|499 * pow2 (-1074)| ≤ 999 / 1000 * |499 * pow2 (-1074)|)) ∧
    (decay_iter_f64 ABS_RX MAX_ABS_f64 DEC_A_f64 DEC_B_f64 2 (.fin (499 * pow2 (-1074)))
        = .fin (499 * pow2 (-1074)) ∧
      ¬ (|499 * pow2 (-1074)| ≤ (999 / 1000) ^ 2 * |499 * pow2 (-1074)|)) ∧
    ((IsDouble 32767 ∧ |(32767 : ℚ)| ≤ 32767) ∧
      decay_factor_f64 MAX_ABS_f64 DEC_A_f64 DEC_B_f64 (.fin 32767)
        = .fin (8908120062938841 / 9007199254740992) ∧
      ¬ ((989 : ℚ) / 1000 ≤ 8908120062938841 / 9007199254740992) ∧
      (abs_dec_f64 ABS_RX MAX_ABS_f64 DEC_A_f64 DEC_B_f64 (.fin 32767)).1
        = .fin (8907848208688873 / 274877906944) ∧
      ¬ (989 / 1000 * |(32767 : ℚ)| ≤ |(8907848208688873 / 274877906944 : ℚ)|)) := by
  decide!

end Kmpad
